import Mathlib

/-!
# GoatCounter CSV export (`export.go`)

A shallow embedding of `ExportFile` and `Export` from `export.go`, and theorems
about them.

`Export` talks to the outside world at every line: the paginated data source
(`hits.List`), the CSV writer and the gzip writer layered on the temporary file,
the file system (`Sync`, `Stat`, `Close`, `Remove`, `Rename`), the hashing of the
published file and the mailer.  The embedding passes the state explicitly and
takes the answer of every call whose error `Export` looks at from an environment
`Env`; each call is appended to a trace of `Event`s, so that statements such as
"no rename is attempted" or "the notification comes after the hashing" are
statements about the trace.

The `for` loop of `Export` has no bound of its own: it runs until the source
returns an empty page or something fails.  `loop` and `Export` therefore take a
number of passes `fuel` and return `none` when the loop has not ended within it.

The file has three parts: the definitions, the lemmas on the loop and on the
code after it, and the statements on `Export` and `ExportFile`.
-/

namespace GoatCounter

/-! ## Formatting (`fmt.Sprintf`) -/

/-- The digit loop of `%d`: the least significant digit of `u` is put in front
of `acc` and the loop goes on with `u / 10` while `u` has more than one digit.
`fuel` bounds the number of passes. -/
def decimalLoop : Nat → Nat → List Char → List Char
  | 0, u, acc => Char.ofNat (48 + u) :: acc
  | fuel + 1, u, acc =>
    if u < 10 then Char.ofNat (48 + u) :: acc
    else decimalLoop fuel (u / 10) (Char.ofNat (48 + u % 10) :: acc)

/-- Decimal digits of a natural number, most significant first, as `%d` prints
them.  A number `n` has at most `n` digits after its first one, so `n` passes
are enough. -/
def decimalDigits (n : Nat) : List Char :=
  decimalLoop n n []

/-- Operands of `fmt.Sprintf`, for the three operand types `export.go` passes. -/
inductive Arg where
  | str (s : String)
  | int (i : Int)
  | bool (b : Bool)

/-- Rendering of one operand under a verb: `%s` on a string, `%d` on an integer
(decimal, with a leading `-` when negative), `%t` on a boolean (the words `true`
and `false`).  A verb applied to an operand of another type is rendered as the
bad-verb marker; `export.go` has no such use. -/
def Arg.render : Char → Arg → List Char
  | 's', .str s => s.data
  | 'd', .int (.ofNat n) => decimalDigits n
  | 'd', .int (.negSucc n) => '-' :: decimalDigits (n + 1)
  | 't', .bool true => "true".data
  | 't', .bool false => "false".data
  | v, _ => ['%', '!', v]

/-- The walk of `fmt.Sprintf` over the format: a `%` followed by a verb consumes
the next operand, every other character is copied. -/
def sprintfAux : List Char → List Arg → List Char
  | [], _ => []
  | [c], _ => [c]
  | c :: v :: rest, args =>
    if c = '%' then
      match args with
      | a :: more => a.render v ++ sprintfAux rest more
      | [] => '%' :: '!' :: v :: sprintfAux rest []
    else c :: sprintfAux (v :: rest) args

/-- The function `fmt.Sprintf` restricted to the verbs `%s`, `%d` and `%t`. -/
def sprintf (format : String) (args : List Arg) : String :=
  String.mk (sprintfAux format.data args)

/-! ## Data model -/

/-- Library code called by `Export` that lies outside the repository: the
element type of `Hit.Size` with `strconv.FormatFloat` as `zfloat.Join` applies
it, the type of instants with `Time.Format(time.RFC3339)`, and the rendering
`fmt.Sprintf("%.1f", float64(n)/1024/1024)` of a byte count. -/
structure Deps where
  Float64 : Type
  Time : Type
  formatFloat : Float64 → String
  formatRFC3339 : Time → String
  formatMiB : Nat → String

/-- The fields of `Site` that `export.go` reads. -/
structure Site where
  id : Int
  code : String
deriving DecidableEq, Repr

/-- The fields of `Hit` that `export.go` reads, and its identifier. -/
structure Hit (D : Deps) where
  id : Int
  path : String
  title : String
  event : Bool
  bot : Int
  session : Int
  ref : String
  browser : String
  size : List D.Float64
  location : String
  createdAt : D.Time

/-- A row handed to `csv.Writer.Write`: its fields, in order. -/
abbrev Row := List String

/-- The function `zfloat.Join`: the numbers rendered and joined by the separator;
the empty string for no numbers. -/
def zfloatJoin (D : Deps) (nums : List D.Float64) (sep : String) : String :=
  sep.intercalate (nums.map D.formatFloat)

/-- The header row written once, right after the CSV writer is created
(`export.go` lines 37-38). -/
def headerRow : Row :=
  ["Path", "Title", "Event", "Bot", "Session",
   "Referrer", "Browser", "Screen size", "Location", "Date"]

/-- The row written for one hit (`export.go` lines 57-60). -/
def hitRow (D : Deps) (hit : Hit D) : Row :=
  [hit.path, hit.title, sprintf "%t" [.bool hit.event],
   sprintf "%d" [.int hit.bot], sprintf "%d" [.int hit.session],
   hit.ref, hit.browser, zfloatJoin D hit.size ",",
   hit.location, D.formatRFC3339 hit.createdAt]

/-- The function `ExportFile`; `tempDir` is the value of `os.TempDir()`. -/
def ExportFile (tempDir : String) (site : Site) : String :=
  sprintf "%s/goatcounter-export-%s.csv.gz" [.str tempDir, .str site.code]

/-! ## The environment of a run -/

/-- Answer of one call `hits.List(ctx, limit, last)`: the records placed in
`hits`, the returned cursor, and whether the returned error is non-nil. -/
structure FetchResult (D : Deps) where
  hits : List (Hit D)
  last : Int
  err : Bool

/-- The field of the user that `export.go` reads. -/
structure User where
  email : String
deriving DecidableEq, Repr

/-- The value handed to the e-mail template (`export.go` lines 123-129). -/
structure Payload where
  site : Site
  lastID : Int
  size : String
  rows : Nat
  hash : String
deriving DecidableEq, Repr

/-- Everything a run of `Export` reads from outside: the context (`site`,
`user`), the configuration (`prod`, `emailFrom`), the name of the temporary
file, and the answer of every call whose error `Export` looks at.
`list k limit last` is the answer of the `k`-th call (counting from 0) of
`hits.List(ctx, limit, last)`; `flushErr k` tells whether `c.Error()` is non-nil
after the flush that follows the `k`-th call.  An `...Err` field is `true` when
the call returns a non-nil error; `statSize` is `none` when `fp.Stat()` fails,
`hashFile` is `none` when `zcrypto.HashFile` fails.  The calls on the error path
whose result `Export` throws away (`_ = gzfp.Close()`, `_ = fp.Close()`,
`_ = os.Remove(fp.Name())`) are taken with their effect: after `os.Remove` no
file exists under the temporary name. -/
structure Env (D : Deps) where
  site : Site
  user : User
  emailFrom : String
  prod : Bool
  tempDir : String
  tmpName : String
  list : Nat → Nat → Int → FetchResult D
  flushErr : Nat → Bool
  gzCloseErr : Bool
  syncErr : Bool
  statSize : Option Nat
  closeErr : Bool
  renameErr : Bool
  hashFile : Option String
  sendErr : Bool

/-- One call made by `Export`, with its answer. -/
inductive Event (D : Deps) where
  | list (limit : Nat) (last : Int) (res : FetchResult D)
  | write (row : Row)
  | flush (err : Bool)
  | sleep (ms : Nat)
  | logError
  | gzClose (err : Bool)
  | fpClose (err : Bool)
  | remove (name : String)
  | sync (err : Bool)
  | stat (size : Option Nat)
  | rename (src dst : String) (err : Bool)
  | hashFile (name : String) (res : Option String)
  | send (rcpt : String) (p : Payload) (err : Bool)
  | deferredGzClose
  | deferredFpClose

/-- The variables of `Export` while the loop runs, and the two buffers behind
the CSV writer.  `buf` holds the rows accepted by `c.Write` that the CSV writer
has not yet passed on; `gz` holds the rows that have reached the gzip writer.
The CSV writer sits on a buffer of 4096 bytes and passes rows on, in the order
written, when `c.Flush()` is called; a full buffer is passed on earlier, which
does not change what `gz` holds after the next successful flush.  The header
row alone is 71 bytes, so it stays in `buf` until the first flush.  `rows` is a
Go `int`; it is a natural number here, since it only grows by page lengths and
cannot reach 2^63 in a run. -/
structure State (D : Deps) where
  last : Int
  err : Bool
  rows : Nat
  calls : Nat
  buf : List Row
  gz : List Row
  trace : List (Event D)

/-- State at the top of the loop (`export.go` lines 32-43): the header row has
been written to the CSV writer, nothing has been flushed. -/
def start (D : Deps) (last : Int) : State D :=
  { last := last, err := false, rows := 0, calls := 0,
    buf := [headerRow], gz := [], trace := [Event.write headerRow] }

/-- One pass through the body of the `for` loop (`export.go` lines 45-72).  The
second component is `true` when the pass ends in `break`.  After a failed flush
the rows that reached the gzip writer are not tracked further. -/
def iter {D : Deps} (env : Env D) (s : State D) : State D × Bool :=
  let res := env.list s.calls 5000 s.last
  let s1 : State D :=
    { s with last := res.last, err := res.err, calls := s.calls + 1,
             trace := s.trace ++ [Event.list 5000 s.last res] }
  if res.hits.length = 0 then (s1, true)
  else if res.err then (s1, true)
  else
    let s2 : State D :=
      { s1 with rows := s1.rows + res.hits.length,
                buf := s1.buf ++ res.hits.map (hitRow D),
                trace := s1.trace ++ res.hits.map (fun hit => Event.write (hitRow D hit)) }
    let fe := env.flushErr s.calls
    let s3 : State D :=
      { s2 with err := fe,
                gz := if fe then s2.gz else s2.gz ++ s2.buf,
                buf := if fe then s2.buf else [],
                trace := s2.trace ++ [Event.flush fe] }
    if fe then (s3, true)
    else if env.prod then ({ s3 with trace := s3.trace ++ [Event.sleep 500] }, false)
    else (s3, false)

/-- The `for` loop of `Export`, run for at most `fuel` passes; `none` when the
loop has not reached a `break` within `fuel` passes. -/
def loop {D : Deps} (env : Env D) : Nat → State D → Option (State D)
  | 0, _ => none
  | fuel + 1, s =>
    let r := iter env s
    if r.2 then some r.1 else loop env fuel r.1

/-- What a finished run leaves behind: the trace of calls, whether a file still
exists under the temporary name, and the rows (after decompression) of the file
this run moved to `ExportFile(site)`, if it moved one. -/
structure Outcome (D : Deps) where
  trace : List (Event D)
  tmpExists : Bool
  published : Option (List Row)

/-- The deferred calls, run at every `return` (`export.go` lines 33-34), last
deferred first. -/
def deferred (D : Deps) : List (Event D) :=
  [Event.deferredGzClose, Event.deferredFpClose]

/-- The size shown in the notification (`export.go` lines 94-98): `"0"` when
`fp.Stat()` fails, the byte count in binary megabytes otherwise. -/
def sizeText (D : Deps) (stat : Option Nat) : String :=
  match stat with
  | some n => D.formatMiB n
  | none => "0"

/-- The part of `Export` after the loop (`export.go` lines 75-133). -/
def afterLoop {D : Deps} (env : Env D) (s : State D) : Outcome D :=
  if s.err then
    { trace := s.trace ++ [Event.logError, Event.gzClose env.gzCloseErr,
        Event.fpClose env.closeErr, Event.remove env.tmpName] ++ deferred D,
      tmpExists := false, published := none }
  else
    let t1 := s.trace ++ [Event.gzClose env.gzCloseErr]
    if env.gzCloseErr then
      { trace := t1 ++ [Event.logError] ++ deferred D, tmpExists := true, published := none }
    else
      let t2 := t1 ++ [Event.sync env.syncErr]
      if env.syncErr then
        { trace := t2 ++ [Event.logError] ++ deferred D, tmpExists := true, published := none }
      else
        let size := sizeText D env.statSize
        let t3 := t2 ++ [Event.stat env.statSize, Event.fpClose env.closeErr]
        if env.closeErr then
          { trace := t3 ++ [Event.logError] ++ deferred D, tmpExists := true, published := none }
        else
          let f := ExportFile env.tempDir env.site
          let t4 := t3 ++ [Event.rename env.tmpName f env.renameErr]
          if env.renameErr then
            { trace := t4 ++ [Event.logError] ++ deferred D, tmpExists := true,
              published := none }
          else
            let t5 := t4 ++ [Event.hashFile f env.hashFile]
            match env.hashFile with
            | none =>
              { trace := t5 ++ [Event.logError] ++ deferred D, tmpExists := false,
                published := some s.gz }
            | some hash =>
              let t6 := t5 ++ [Event.send env.user.email
                { site := env.site, lastID := s.last, size := size, rows := s.rows,
                  hash := hash } env.sendErr]
              { trace := (if env.sendErr then t6 ++ [Event.logError] else t6) ++ deferred D,
                tmpExists := false, published := some s.gz }

/-- The function `Export`, started with cursor `last`, its loop run for at most
`fuel` passes. -/
def Export {D : Deps} (env : Env D) (fuel : Nat) (last : Int) : Option (Outcome D) :=
  (loop env fuel (start D last)).map (afterLoop env)

/-! ## Reading a trace -/

/-- One call of `hits.List` as it appears in a trace: the limit and the cursor
it was called with, and its answer. -/
structure Fetch (D : Deps) where
  limit : Nat
  cursor : Int
  res : FetchResult D

/-- The `hits.List` call recorded by an event, if it is one. -/
def Event.fetch? {D : Deps} : Event D → Option (Fetch D)
  | .list limit last res => some ⟨limit, last, res⟩
  | _ => none

/-- The row recorded by an event, if it is a call of `c.Write`. -/
def Event.write? {D : Deps} : Event D → Option Row
  | .write row => some row
  | _ => none

/-- The result recorded by an event, if it is a flush of the CSV writer. -/
def Event.flush? {D : Deps} : Event D → Option Bool
  | .flush err => some err
  | _ => none

/-- The payload recorded by an event, if it is a call of the mailer. -/
def Event.send? {D : Deps} : Event D → Option Payload
  | .send _ p _ => some p
  | _ => none

/-- Events that only the body of the loop produces. -/
def Event.inLoop {D : Deps} : Event D → Bool
  | .list _ _ _ => true
  | .write _ => true
  | .flush _ => true
  | .sleep _ => true
  | _ => false

/-- The calls of `hits.List` in a trace, in order. -/
def fetches {D : Deps} (t : List (Event D)) : List (Fetch D) := t.filterMap Event.fetch?

/-- The rows handed to `c.Write` in a trace, in order. -/
def writes {D : Deps} (t : List (Event D)) : List Row := t.filterMap Event.write?

/-- The results of the flushes in a trace, in order. -/
def flushes {D : Deps} (t : List (Event D)) : List Bool := t.filterMap Event.flush?

/-- The payloads of the notifications sent in a trace, in order. -/
def sends {D : Deps} (t : List (Event D)) : List Payload := t.filterMap Event.send?

/-- The records returned by the calls of `hits.List` in a trace, page after page. -/
def fetched {D : Deps} (t : List (Event D)) : List (Hit D) :=
  ((fetches t).map (fun f => f.res.hits)).flatten

/-- The cursor `Export` holds after the fetches `fs`, having started from `last`:
every call of `hits.List` assigns its returned cursor to `last`. -/
def cursorAfter {D : Deps} (last : Int) (fs : List (Fetch D)) : Int :=
  fs.foldl (fun _ f => f.res.last) last

/-! ## What holds at the top of the loop -/

/-- The fetch log of a run started with cursor `last`: the `k`-th call asks for
5000 records after the cursor returned by the call before it (after `last` for
the first call) and is answered by `env.list k`.  The last argument is the
cursor held after the log. -/
inductive Run {D : Deps} (env : Env D) (last : Int) : List (Fetch D) → Int → Prop where
  | nil : Run env last [] last
  | snoc {fs : List (Fetch D)} {c : Int} (h : Run env last fs c) :
      Run env last (fs ++ [⟨5000, c, env.list fs.length 5000 c⟩])
        (env.list fs.length 5000 c).last

/-- The facts that hold each time the loop of a run started with cursor `last`
is at its top. -/
structure Good {D : Deps} (env : Env D) (last : Int) (s : State D) : Prop where
  err : s.err = false
  calls : s.calls = (fetches s.trace).length
  run : Run env last (fetches s.trace) s.last
  inLoop : ∀ e ∈ s.trace, e.inLoop = true
  limits : ∀ f ∈ fetches s.trace, f.limit = 5000
  pages : ∀ f ∈ fetches s.trace, f.res.hits ≠ [] ∧ f.res.err = false
  flushed : ∀ b ∈ flushes s.trace, b = false
  rows : s.rows = (fetched s.trace).length
  written : writes s.trace = headerRow :: (fetched s.trace).map (hitRow D)
  buf : s.buf = if (fetches s.trace).isEmpty then [headerRow] else []
  gz : s.gz = if (fetches s.trace).isEmpty then [] else writes s.trace

/-- The facts that hold of the state in which the loop of a run started with
cursor `last` ends. -/
structure Done {D : Deps} (env : Env D) (last : Int) (s : State D) : Prop where
  run : Run env last (fetches s.trace) s.last
  inLoop : ∀ e ∈ s.trace, e.inLoop = true
  limits : ∀ f ∈ fetches s.trace, f.limit = 5000
  pages : ∀ f ∈ (fetches s.trace).dropLast, f.res.hits ≠ [] ∧ f.res.err = false
  flushed : ∀ b ∈ (flushes s.trace).dropLast, b = false
  errIff : s.err = false ↔
    ((∃ f, (fetches s.trace).getLast? = some f ∧ f.res.hits = [] ∧ f.res.err = false) ∧
      ∀ b ∈ flushes s.trace, b = false)
  rows : s.err = false → s.rows = (fetched s.trace).length
  written : s.err = false → writes s.trace = headerRow :: (fetched s.trace).map (hitRow D)
  gz : s.err = false →
    s.gz = if (fetched s.trace).isEmpty then [] else headerRow :: (fetched s.trace).map (hitRow D)

/-! ## Notions the statements use -/

/-- The number written by a string of decimal digits. -/
def digitsValue (cs : List Char) : Nat :=
  cs.foldl (fun acc c => 10 * acc + (c.toNat - 48)) 0

/-- Reading of a decimal integer: an optional `-`, then one or more decimal
digits and nothing else. -/
def parseDecimal (cs : List Char) : Option Int :=
  match cs with
  | [] => none
  | c :: rest =>
    if c = '-' then
      if rest ≠ [] ∧ rest.all Char.isDigit = true then some (-(digitsValue rest : Int)) else none
    else if (c :: rest).all Char.isDigit = true then some (digitsValue (c :: rest) : Int)
    else none

/-- The identifiers of the records returned by a list of fetches, page after
page. -/
def fetchedIds {D : Deps} (fs : List (Fetch D)) : List Int :=
  ((fs.map (fun f => f.res.hits)).flatten).map (fun hit => hit.id)

/-- Modelled from the spec: the page-fetch contract on the method `Hits.List`,
whose code is not in `export.go`, as far as the cursor is concerned.  A fetch
with cursor `c` returns only records with an identifier greater than `c`; the
returned cursor is the highest identifier of the returned page, and `c`
unchanged when the page is empty. -/
def PageContract {D : Deps} (list : Nat → Nat → Int → FetchResult D) : Prop :=
  ∀ (k limit : Nat) (c : Int),
    (∀ hit ∈ (list k limit c).hits, c < hit.id) ∧
    ((list k limit c).hits = [] → (list k limit c).last = c) ∧
    ((list k limit c).hits ≠ [] →
      (∃ hit ∈ (list k limit c).hits, hit.id = (list k limit c).last) ∧
      ∀ hit ∈ (list k limit c).hits, hit.id ≤ (list k limit c).last)

/-- The page lengths of a run over `n` records with pages of 5000: full pages,
then the rest if there is one, then the empty page. -/
def pageSizes (n : Nat) : List Nat :=
  List.replicate (n / 5000) 5000 ++ (if n % 5000 = 0 then [] else [n % 5000]) ++ [0]

/-! ## Concrete runs -/

/-- A concrete library for closed examples: screen sizes and instants are
natural numbers, printed in decimal. -/
def plainDeps : Deps :=
  { Float64 := Nat, Time := Nat,
    formatFloat := fun n => String.mk (decimalDigits n),
    formatRFC3339 := fun n => String.mk (decimalDigits n),
    formatMiB := fun n => String.mk (decimalDigits n) }

/-- A record with identifier and session `i` and no screen size. -/
def sampleHit (i : Nat) : Hit plainDeps :=
  { id := i, path := "/p", title := "t", event := false, bot := 0, session := i,
    ref := "", browser := "", size := [], location := "", createdAt := (0 : Nat) }

/-- Modelled from the spec: the method `Hits.List`, whose code is not in
`export.go`.  Following the page-fetch contract, a fetch with cursor `last` and
limit `limit` returns, in ascending order of identifier, the first `limit`
records of `recs` whose identifier is greater than `last` (all of them when
fewer remain, none when none remain), the returned cursor is the identifier of
the last record of the page, or `last` unchanged for an empty page, and the
fetch never errors.  `recs` is the stored list of records, in ascending order
of identifier. -/
def contractList {D : Deps} (recs : List (Hit D)) (_k : Nat) (limit : Nat) (last : Int) :
    FetchResult D :=
  let page := (recs.filter (fun hit => decide (last < hit.id))).take limit
  { hits := page,
    last := match page.getLast? with
      | some hit => hit.id
      | none => last,
    err := false }

/-- An environment in which every call other than `hits.List` succeeds. -/
def quietEnv (list : Nat → Nat → Int → FetchResult plainDeps) : Env plainDeps :=
  { site := ⟨1, "abc"⟩, user := ⟨"user@example.com"⟩, emailFrom := "goatcounter@example.com",
    prod := false, tempDir := "/tmp", tmpName := "/tmp/goatcounter-export-123",
    list := list, flushErr := fun _ => false, gzCloseErr := false, syncErr := false,
    statSize := some 1048576, closeErr := false, renameErr := false,
    hashFile := some "sha256-0", sendErr := false }

/-- A source that holds no record. -/
def emptyEnv : Env plainDeps := quietEnv (contractList [])

/-- A source that holds two records, with identifiers 1 and 2. -/
def twoEnv : Env plainDeps := quietEnv (contractList [sampleHit 1, sampleHit 2])

/-- The run of `twoEnv` in which closing the gzip writer fails. -/
def finalizeFailEnv : Env plainDeps := { twoEnv with gzCloseErr := true }

/-- The run of `twoEnv` in which the rename to the final path fails. -/
def renameFailEnv : Env plainDeps := { twoEnv with renameErr := true }

/-- A source whose first fetch returns 5000 records, with identifiers 1 to 5000,
and whose second fetch fails. -/
def secondFetchFails (k : Nat) (_limit : Nat) (last : Int) : FetchResult plainDeps :=
  if k = 0 then ⟨(List.range 5000).map (fun i => sampleHit (i + 1)), 5000, false⟩
  else ⟨[], last, true⟩

/-- The run on `secondFetchFails` in which every other call succeeds. -/
def secondFetchFailsEnv : Env plainDeps := quietEnv secondFetchFails

/-- A source that holds 12000 records, with identifiers 1 to 12000. -/
def twelveThousand : List (Hit plainDeps) := (List.range 12000).map (fun i => sampleHit (i + 1))

/-- The run on `twelveThousand` in which every call succeeds. -/
def twelveThousandEnv : Env plainDeps := quietEnv (contractList twelveThousand)

/-- The run of `twoEnv` in which the flush after the first page fails. -/
def flushFailEnv : Env plainDeps := { twoEnv with flushErr := fun _ => true }

/-! ## Lemmas on traces -/

section TraceLemmas

variable {D : Deps}

@[simp] theorem fetches_nil : fetches ([] : List (Event D)) = [] := rfl

@[simp] theorem fetches_append (a b : List (Event D)) :
    fetches (a ++ b) = fetches a ++ fetches b := by
  simp [fetches]

@[simp] theorem fetches_cons (e : Event D) (t : List (Event D)) :
    fetches (e :: t) = (match e.fetch? with | some f => [f] | none => []) ++ fetches t := by
  cases h : e.fetch? <;> simp [fetches, List.filterMap_cons, h]

@[simp] theorem writes_nil : writes ([] : List (Event D)) = [] := rfl

@[simp] theorem writes_append (a b : List (Event D)) :
    writes (a ++ b) = writes a ++ writes b := by
  simp [writes]

@[simp] theorem writes_cons (e : Event D) (t : List (Event D)) :
    writes (e :: t) = (match e.write? with | some f => [f] | none => []) ++ writes t := by
  cases h : e.write? <;> simp [writes, List.filterMap_cons, h]

@[simp] theorem flushes_nil : flushes ([] : List (Event D)) = [] := rfl

@[simp] theorem flushes_append (a b : List (Event D)) :
    flushes (a ++ b) = flushes a ++ flushes b := by
  simp [flushes]

@[simp] theorem flushes_cons (e : Event D) (t : List (Event D)) :
    flushes (e :: t) = (match e.flush? with | some f => [f] | none => []) ++ flushes t := by
  cases h : e.flush? <;> simp [flushes, List.filterMap_cons, h]

@[simp] theorem sends_nil : sends ([] : List (Event D)) = [] := rfl

@[simp] theorem sends_append (a b : List (Event D)) :
    sends (a ++ b) = sends a ++ sends b := by
  simp [sends]

@[simp] theorem sends_cons (e : Event D) (t : List (Event D)) :
    sends (e :: t) = (match e.send? with | some f => [f] | none => []) ++ sends t := by
  cases h : e.send? <;> simp [sends, List.filterMap_cons, h]

@[simp] theorem fetches_map_write (rows : List (Hit D)) :
    fetches (rows.map (fun hit => (Event.write (hitRow D hit) : Event D))) = [] := by
  induction rows with
  | nil => rfl
  | cons r rs ih => simpa [Event.fetch?] using ih

@[simp] theorem flushes_map_write (rows : List (Hit D)) :
    flushes (rows.map (fun hit => (Event.write (hitRow D hit) : Event D))) = [] := by
  induction rows with
  | nil => rfl
  | cons r rs ih => simpa [Event.flush?] using ih

@[simp] theorem sends_map_write (rows : List (Hit D)) :
    sends (rows.map (fun hit => (Event.write (hitRow D hit) : Event D))) = [] := by
  induction rows with
  | nil => rfl
  | cons r rs ih => simpa [Event.send?] using ih

@[simp] theorem writes_map_write (rows : List (Hit D)) :
    writes (rows.map (fun hit => (Event.write (hitRow D hit) : Event D))) = rows.map (hitRow D) := by
  induction rows with
  | nil => rfl
  | cons r rs ih => simpa [Event.write?] using ih

@[simp] theorem fetched_nil : fetched ([] : List (Event D)) = [] := rfl

theorem fetched_append (a b : List (Event D)) :
    fetched (a ++ b) = fetched a ++ fetched b := by
  simp [fetched]

@[simp] theorem cursorAfter_nil (last : Int) : cursorAfter last ([] : List (Fetch D)) = last := rfl

@[simp] theorem cursorAfter_snoc (last : Int) (fs : List (Fetch D)) (f : Fetch D) :
    cursorAfter last (fs ++ [f]) = f.res.last := by
  simp [cursorAfter]

end TraceLemmas

/-! ## The loop -/

section LoopLemmas

variable {D : Deps}

/-- A property kept by every pass that does not break holds at the top of the
pass that breaks, and the loop returns the state that pass leaves. -/
theorem loop_exit (env : Env D) (Inv : State D → Prop)
    (hstep : ∀ s, Inv s → (iter env s).2 = false → Inv (iter env s).1) :
    ∀ (fuel : Nat) (s s' : State D), Inv s → loop env fuel s = some s' →
      ∃ sl, Inv sl ∧ (iter env sl).2 = true ∧ s' = (iter env sl).1 := by
  intro fuel
  induction fuel with
  | zero => intro s s' _ h; simp [loop] at h
  | succ n ih =>
    intro s s' hs h
    simp only [loop] at h
    by_cases hb : (iter env s).2 = true
    · rw [if_pos hb] at h
      exact ⟨s, hs, hb, (Option.some.inj h).symm⟩
    · rw [if_neg hb] at h
      exact ih _ _ (hstep s hs (by simpa using hb)) h

theorem good_start (env : Env D) (last : Int) : Good env last (start D last) where
  err := rfl
  calls := by simp [start, Event.fetch?]
  run := by simpa [start, Event.fetch?] using Run.nil
  inLoop := by simp [start, Event.inLoop]
  limits := by simp [start, Event.fetch?]
  pages := by simp [start, Event.fetch?]
  flushed := by simp [start, Event.flush?]
  rows := by simp [start, fetched, Event.fetch?]
  written := by simp [start, fetched, Event.fetch?, Event.write?]
  buf := by simp [start, Event.fetch?]
  gz := by simp [start, Event.fetch?]

/-- The events one pass appends when it fetches a non-empty page without error. -/
theorem iter_continue (env : Env D) (s : State D) (hb : (iter env s).2 = false) :
    (env.list s.calls 5000 s.last).hits ≠ [] ∧ (env.list s.calls 5000 s.last).err = false ∧
    env.flushErr s.calls = false ∧
    (iter env s).1 =
      { last := (env.list s.calls 5000 s.last).last, err := false,
        rows := s.rows + (env.list s.calls 5000 s.last).hits.length,
        calls := s.calls + 1, buf := [],
        gz := s.gz ++ (s.buf ++ (env.list s.calls 5000 s.last).hits.map (hitRow D)),
        trace := s.trace ++ [Event.list 5000 s.last (env.list s.calls 5000 s.last)] ++
          (env.list s.calls 5000 s.last).hits.map (fun hit => Event.write (hitRow D hit)) ++
          [Event.flush false] ++ (if env.prod then [Event.sleep 500] else []) } := by
  unfold iter at hb ⊢
  simp only at hb ⊢
  split_ifs at hb ⊢ with h1 h2 h3 h4 <;> simp_all

theorem good_iter (env : Env D) (last : Int) (s : State D) (hs : Good env last s)
    (hb : (iter env s).2 = false) : Good env last (iter env s).1 := by
  obtain ⟨hne, herr, hfl, heq⟩ := iter_continue env s hb
  rw [heq]
  have hrun := Run.snoc hs.run
  rw [← hs.calls] at hrun
  have hf : fetches (if env.prod = true then [(Event.sleep 500 : Event D)] else []) = [] := by
    split <;> simp [Event.fetch?]
  have hw : writes (if env.prod = true then [(Event.sleep 500 : Event D)] else []) = [] := by
    split <;> simp [Event.write?]
  have hfs : flushes (if env.prod = true then [(Event.sleep 500 : Event D)] else []) = [] := by
    split <;> simp [Event.flush?]
  constructor
  · rfl
  · simp [Event.fetch?, hf, hs.calls]
  · simpa [Event.fetch?, hf] using hrun
  · intro e he
    simp only [List.mem_append, List.mem_map, List.mem_singleton] at he
    rcases he with (((he | he) | ⟨h, _, he⟩) | he) | he
    · exact hs.inLoop e he
    · subst he; rfl
    · subst he; rfl
    · subst he; rfl
    · split at he
      · simp at he; subst he; rfl
      · simp at he
  · intro f hf'
    simp [Event.fetch?, hf] at hf'
    rcases hf' with hf' | hf'
    · exact hs.limits f hf'
    · subst hf'; rfl
  · intro f hf'
    simp [Event.fetch?, hf] at hf'
    rcases hf' with hf' | hf'
    · exact hs.pages f hf'
    · subst hf'; exact ⟨hne, herr⟩
  · intro b hb'
    simp [Event.flush?, hfs] at hb'
    rcases hb' with hb' | hb'
    · exact hs.flushed b hb'
    · exact hb'
  · simp [fetched, Event.fetch?, hf, hs.rows]
  · simp [fetched, Event.fetch?, Event.write?, hf, hw, hs.written]
  · simp [Event.fetch?, hf]
  · simp [Event.fetch?, Event.write?, hf, hw, hs.gz, hs.buf, hs.written]
    split <;> simp_all [fetched]

/-- The two ways a pass ends in `break`: right after the fetch (an empty page,
or an error), or after a failed flush. -/
theorem iter_break (env : Env D) (s : State D) (hb : (iter env s).2 = true) :
    (((env.list s.calls 5000 s.last).hits = [] ∨ (env.list s.calls 5000 s.last).err = true) ∧
      (iter env s).1 =
        { last := (env.list s.calls 5000 s.last).last,
          err := (env.list s.calls 5000 s.last).err,
          rows := s.rows, calls := s.calls + 1, buf := s.buf, gz := s.gz,
          trace := s.trace ++ [Event.list 5000 s.last (env.list s.calls 5000 s.last)] }) ∨
    ((env.list s.calls 5000 s.last).hits ≠ [] ∧ (env.list s.calls 5000 s.last).err = false ∧
      env.flushErr s.calls = true ∧
      (iter env s).1 =
        { last := (env.list s.calls 5000 s.last).last, err := true,
          rows := s.rows + (env.list s.calls 5000 s.last).hits.length,
          calls := s.calls + 1,
          buf := s.buf ++ (env.list s.calls 5000 s.last).hits.map (hitRow D),
          gz := s.gz,
          trace := s.trace ++ [Event.list 5000 s.last (env.list s.calls 5000 s.last)] ++
            (env.list s.calls 5000 s.last).hits.map (fun hit => Event.write (hitRow D hit)) ++
            [Event.flush true] }) := by
  unfold iter at hb ⊢
  simp only at hb ⊢
  split_ifs at hb ⊢ with h1 h2 h3 h4 <;> simp_all

/-- Every finished run is the code after the loop applied to the state left by
a breaking pass that started from a state satisfying `Good`. -/
theorem export_exit (env : Env D) (fuel : Nat) (last : Int) (r : Outcome D)
    (h : Export env fuel last = some r) :
    ∃ sl, Good env last sl ∧ (iter env sl).2 = true ∧ r = afterLoop env (iter env sl).1 := by
  unfold Export at h
  cases hl : loop env fuel (start D last) with
  | none => simp [hl] at h
  | some s' =>
    rw [hl] at h
    obtain ⟨sl, hg, hb, hs⟩ :=
      loop_exit env (Good env last) (good_iter env last) fuel _ _ (good_start env last) hl
    refine ⟨sl, hg, hb, ?_⟩
    rw [← hs]
    simpa using h.symm


theorem fetched_eq_nil_of_good {env : Env D} {last : Int} {s : State D} (hg : Good env last s) :
    (fetched s.trace).isEmpty = (fetches s.trace).isEmpty := by
  cases hf : fetches s.trace with
  | nil => simp [fetched, hf]
  | cons f fs =>
    have := (hg.pages f (by simp [hf])).1
    cases hh : f.res.hits with
    | nil => exact absurd hh this
    | cons a as => simp [fetched, hf, hh]

theorem done_of_break (env : Env D) (last : Int) (s : State D) (hg : Good env last s)
    (hb : (iter env s).2 = true) : Done env last (iter env s).1 := by
  have hrun := Run.snoc hg.run
  rw [← hg.calls] at hrun
  have hemp := fetched_eq_nil_of_good hg
  rcases iter_break env s hb with ⟨hc, heq⟩ | ⟨hne, herr, hfe, heq⟩
  · rw [heq]
    constructor
    · simpa [Event.fetch?] using hrun
    · intro e he
      simp only [List.mem_append, List.mem_singleton] at he
      rcases he with he | he
      · exact hg.inLoop e he
      · subst he; rfl
    · intro f hf
      simp [Event.fetch?] at hf
      rcases hf with hf | hf
      · exact hg.limits f hf
      · subst hf; rfl
    · simpa [Event.fetch?] using hg.pages
    · intro b hb'
      simp [Event.fetch?, Event.flush?] at hb'
      exact hg.flushed b (List.mem_of_mem_dropLast hb')
    · simp [Event.fetch?, Event.flush?]
      constructor
      · intro he
        rcases hc with hc | hc
        · exact ⟨⟨hc, he⟩, fun hm => by cases hg.flushed true hm⟩
        · rw [hc] at he; cases he
      · intro h; exact h.1.2
    · intro he
      simp only at he
      rcases hc with hc | hc
      · simp [fetched, Event.fetch?, hc, hg.rows]
      · rw [hc] at he; cases he
    · intro he
      simp only at he
      rcases hc with hc | hc
      · simp [fetched, Event.fetch?, Event.write?, hc, hg.written]
      · rw [hc] at he; cases he
    · intro he
      simp only at he
      rcases hc with hc | hc
      · have : fetched (s.trace ++ [Event.list 5000 s.last (env.list s.calls 5000 s.last)])
            = fetched s.trace := by simp [fetched, Event.fetch?, hc]
        rw [this, hemp, hg.gz, hg.written]
      · rw [hc] at he; cases he
  · rw [heq]
    constructor
    · simpa [Event.fetch?] using hrun
    · intro e he
      simp only [List.mem_append, List.mem_map, List.mem_singleton] at he
      rcases he with ((he | he) | ⟨h, _, he⟩) | he
      · exact hg.inLoop e he
      · subst he; rfl
      · subst he; rfl
      · subst he; rfl
    · intro f hf
      simp [Event.fetch?] at hf
      rcases hf with hf | hf
      · exact hg.limits f hf
      · subst hf; rfl
    · simpa [Event.fetch?] using hg.pages
    · simpa [Event.flush?] using hg.flushed
    · simp [Event.fetch?, Event.flush?, hne]
    · intro he; cases he
    · intro he; cases he
    · intro he; cases he

/-- Every finished run is the code after the loop applied to a state satisfying
`Done`. -/
theorem export_done (env : Env D) (fuel : Nat) (last : Int) (r : Outcome D)
    (h : Export env fuel last = some r) :
    ∃ s, Done env last s ∧ r = afterLoop env s := by
  obtain ⟨sl, hg, hb, hr⟩ := export_exit env fuel last r h
  exact ⟨_, done_of_break env last sl hg hb, hr⟩

theorem not_mem_of_inLoop {t : List (Event D)} (h : ∀ e ∈ t, e.inLoop = true) (e : Event D)
    (he : e.inLoop = false) : e ∉ t := by
  intro hm
  rw [h e hm] at he
  cases he

theorem afterLoop_fetches (env : Env D) (s : State D) :
    fetches (afterLoop env s).trace = fetches s.trace := by
  unfold afterLoop
  simp only
  split_ifs <;> try split
  all_goals simp [deferred, Event.fetch?]

theorem afterLoop_flushes (env : Env D) (s : State D) :
    flushes (afterLoop env s).trace = flushes s.trace := by
  unfold afterLoop
  simp only
  split_ifs <;> try split
  all_goals simp [deferred, Event.flush?]

theorem afterLoop_writes (env : Env D) (s : State D) :
    writes (afterLoop env s).trace = writes s.trace := by
  unfold afterLoop
  simp only
  split_ifs <;> try split
  all_goals simp [deferred, Event.write?]

theorem afterLoop_fetched (env : Env D) (s : State D) :
    fetched (afterLoop env s).trace = fetched s.trace := by
  simp [fetched, afterLoop_fetches]


theorem afterLoop_rename (env : Env D) (s : State D) (hin : ∀ e ∈ s.trace, e.inLoop = true) :
    ((∃ src dst err, Event.rename src dst err ∈ (afterLoop env s).trace) ↔
      (s.err = false ∧ Event.gzClose false ∈ (afterLoop env s).trace ∧
        Event.sync false ∈ (afterLoop env s).trace ∧
        Event.fpClose false ∈ (afterLoop env s).trace)) ∧
    (∀ src dst err, Event.rename src dst err ∈ (afterLoop env s).trace →
      src = env.tmpName ∧ dst = ExportFile env.tempDir env.site) := by
  have h1 : ∀ a b c, Event.rename a b c ∉ s.trace :=
    fun a b c => not_mem_of_inLoop hin _ rfl
  have h2 : ∀ a, Event.gzClose a ∉ s.trace := fun a => not_mem_of_inLoop hin _ rfl
  have h3 : ∀ a, Event.sync a ∉ s.trace := fun a => not_mem_of_inLoop hin _ rfl
  have h4 : ∀ a, Event.fpClose a ∉ s.trace := fun a => not_mem_of_inLoop hin _ rfl
  unfold afterLoop
  simp only
  split_ifs with e1 e2 e3 e4 e5 <;> try split
  all_goals simp [deferred, h1, h2, h3, h4, e1]
  all_goals simp_all


/-- The seven ways the code after the loop ends. -/
theorem afterLoop_cases (env : Env D) (s : State D) :
    (s.err = true ∧ afterLoop env s =
      { trace := s.trace ++ [Event.logError, Event.gzClose env.gzCloseErr,
          Event.fpClose env.closeErr, Event.remove env.tmpName] ++ deferred D,
        tmpExists := false, published := none }) ∨
    (s.err = false ∧ env.gzCloseErr = true ∧ afterLoop env s =
      { trace := s.trace ++ [Event.gzClose true, Event.logError] ++ deferred D,
        tmpExists := true, published := none }) ∨
    (s.err = false ∧ env.gzCloseErr = false ∧ env.syncErr = true ∧ afterLoop env s =
      { trace := s.trace ++ [Event.gzClose false, Event.sync true, Event.logError] ++
          deferred D,
        tmpExists := true, published := none }) ∨
    (s.err = false ∧ env.gzCloseErr = false ∧ env.syncErr = false ∧ env.closeErr = true ∧
      afterLoop env s =
      { trace := s.trace ++ [Event.gzClose false, Event.sync false, Event.stat env.statSize,
          Event.fpClose true, Event.logError] ++ deferred D,
        tmpExists := true, published := none }) ∨
    (s.err = false ∧ env.gzCloseErr = false ∧ env.syncErr = false ∧ env.closeErr = false ∧
      env.renameErr = true ∧ afterLoop env s =
      { trace := s.trace ++ [Event.gzClose false, Event.sync false, Event.stat env.statSize,
          Event.fpClose false,
          Event.rename env.tmpName (ExportFile env.tempDir env.site) true,
          Event.logError] ++ deferred D,
        tmpExists := true, published := none }) ∨
    (s.err = false ∧ env.gzCloseErr = false ∧ env.syncErr = false ∧ env.closeErr = false ∧
      env.renameErr = false ∧ env.hashFile = none ∧ afterLoop env s =
      { trace := s.trace ++ [Event.gzClose false, Event.sync false, Event.stat env.statSize,
          Event.fpClose false,
          Event.rename env.tmpName (ExportFile env.tempDir env.site) false,
          Event.hashFile (ExportFile env.tempDir env.site) none,
          Event.logError] ++ deferred D,
        tmpExists := false, published := some s.gz }) ∨
    (∃ hash, s.err = false ∧ env.gzCloseErr = false ∧ env.syncErr = false ∧
      env.closeErr = false ∧ env.renameErr = false ∧ env.hashFile = some hash ∧
      afterLoop env s =
      { trace := s.trace ++ [Event.gzClose false, Event.sync false, Event.stat env.statSize,
          Event.fpClose false,
          Event.rename env.tmpName (ExportFile env.tempDir env.site) false,
          Event.hashFile (ExportFile env.tempDir env.site) (some hash),
          Event.send env.user.email
            { site := env.site, lastID := s.last, size := sizeText D env.statSize,
              rows := s.rows, hash := hash } env.sendErr] ++
          (if env.sendErr then [Event.logError] else []) ++ deferred D,
        tmpExists := false, published := some s.gz }) := by
  cases e1 : s.err with
  | true => exact Or.inl ⟨rfl, by simp [afterLoop, e1]⟩
  | false =>
    refine Or.inr ?_
    cases e2 : env.gzCloseErr with
    | true => exact Or.inl ⟨rfl, rfl, by simp [afterLoop, e1, e2]⟩
    | false =>
      refine Or.inr ?_
      cases e3 : env.syncErr with
      | true => exact Or.inl ⟨rfl, rfl, rfl, by simp [afterLoop, e1, e2, e3]⟩
      | false =>
        refine Or.inr ?_
        cases e4 : env.closeErr with
        | true => exact Or.inl ⟨rfl, rfl, rfl, rfl, by simp [afterLoop, e1, e2, e3, e4]⟩
        | false =>
          refine Or.inr ?_
          cases e5 : env.renameErr with
          | true =>
            exact Or.inl ⟨rfl, rfl, rfl, rfl, rfl, by simp [afterLoop, e1, e2, e3, e4, e5]⟩
          | false =>
            refine Or.inr ?_
            cases e6 : env.hashFile with
            | none =>
              exact Or.inl ⟨rfl, rfl, rfl, rfl, rfl, rfl,
                by simp [afterLoop, e1, e2, e3, e4, e5, e6]⟩
            | some hash =>
              refine Or.inr ⟨hash, rfl, rfl, rfl, rfl, rfl, rfl, ?_⟩
              cases e7 : env.sendErr <;> simp [afterLoop, e1, e2, e3, e4, e5, e6, e7]

/-- A pass whose fetch returns a non-empty page without error and whose flush
succeeds does not break. -/
theorem iter_ok (env : Env D) (s : State D)
    (hne : (env.list s.calls 5000 s.last).hits ≠ [])
    (herr : (env.list s.calls 5000 s.last).err = false)
    (hfl : env.flushErr s.calls = false) :
    iter env s =
      ({ last := (env.list s.calls 5000 s.last).last, err := false,
         rows := s.rows + (env.list s.calls 5000 s.last).hits.length,
         calls := s.calls + 1, buf := [],
         gz := s.gz ++ (s.buf ++ (env.list s.calls 5000 s.last).hits.map (hitRow D)),
         trace := s.trace ++ [Event.list 5000 s.last (env.list s.calls 5000 s.last)] ++
           (env.list s.calls 5000 s.last).hits.map (fun hit => Event.write (hitRow D hit)) ++
           [Event.flush false] ++ (if env.prod then [Event.sleep 500] else []) }, false) := by
  unfold iter
  simp only
  split_ifs <;> simp_all

/-- A pass whose fetch returns an empty page, or an error, breaks right after
the fetch. -/
theorem iter_stop (env : Env D) (s : State D)
    (hc : (env.list s.calls 5000 s.last).hits = [] ∨ (env.list s.calls 5000 s.last).err = true) :
    iter env s =
      ({ last := (env.list s.calls 5000 s.last).last,
         err := (env.list s.calls 5000 s.last).err,
         rows := s.rows, calls := s.calls + 1, buf := s.buf, gz := s.gz,
         trace := s.trace ++ [Event.list 5000 s.last (env.list s.calls 5000 s.last)] }, true) := by
  unfold iter
  simp only
  split_ifs <;> simp_all

/-- A pass whose flush fails breaks after the flush. -/
theorem iter_flush_fail (env : Env D) (s : State D)
    (hne : (env.list s.calls 5000 s.last).hits ≠ [])
    (herr : (env.list s.calls 5000 s.last).err = false)
    (hfl : env.flushErr s.calls = true) :
    iter env s =
      ({ last := (env.list s.calls 5000 s.last).last, err := true,
         rows := s.rows + (env.list s.calls 5000 s.last).hits.length,
         calls := s.calls + 1,
         buf := s.buf ++ (env.list s.calls 5000 s.last).hits.map (hitRow D),
         gz := s.gz,
         trace := s.trace ++ [Event.list 5000 s.last (env.list s.calls 5000 s.last)] ++
           (env.list s.calls 5000 s.last).hits.map (fun hit => Event.write (hitRow D hit)) ++
           [Event.flush true] }, true) := by
  unfold iter
  simp only
  split_ifs <;> simp_all

theorem loop_succ (env : Env D) (fuel : Nat) (s : State D) :
    loop env (fuel + 1) s = if (iter env s).2 then some (iter env s).1
      else loop env fuel (iter env s).1 := rfl

theorem export_second_fetch_error (env : Env D) (last : Int)
    (h0 : (env.list 0 5000 last).hits.length = 5000 ∧ (env.list 0 5000 last).err = false)
    (hf : env.flushErr 0 = false)
    (h1 : (env.list 1 5000 (env.list 0 5000 last).last).err = true) :
    ∃ r, Export env 2 last = some r ∧ (writes r.trace).length = 5001 ∧
      r.tmpExists = false ∧ r.published = none ∧ sends r.trace = [] ∧
      (∃ f ∈ fetches r.trace, f.res.err = true) := by
  have hne : (env.list 0 5000 last).hits ≠ [] := by
    intro hnil
    have := h0.1
    rw [hnil] at this
    simp at this
  have e1 := iter_ok env (start D last) hne h0.2 hf
  have e2 := iter_stop env (iter env (start D last)).1 (Or.inr (by rw [e1]; exact h1))
  have hE : Export env 2 last = some (afterLoop env (iter env (iter env (start D last)).1).1) := by
    have hb1 : (iter env (start D last)).2 = false := by rw [e1]
    have hb2 : (iter env (iter env (start D last)).1).2 = true := by rw [e2]
    unfold Export
    rw [loop_succ, hb1, if_neg (by simp), loop_succ, hb2, if_pos rfl]
    rfl
  refine ⟨_, hE, ?_⟩
  rw [e2, e1]
  simp [afterLoop, start, h1, deferred, Event.write?, Event.send?, Event.fetch?, h0.1]
  split_ifs <;> simp [Event.write?, Event.send?, Event.fetch?, h1]

theorem sends_eq_nil_of_inLoop {t : List (Event D)} (hin : ∀ e ∈ t, e.inLoop = true) :
    sends t = [] := by
  unfold sends
  rw [List.filterMap_eq_nil_iff]
  intro ev hev
  have := hin ev hev
  cases ev <;> simp_all [Event.inLoop, Event.send?]


/-- What the code after the loop publishes, and what it reports. -/
theorem afterLoop_published (env : Env D) (s : State D) (hin : ∀ e ∈ s.trace, e.inLoop = true) :
    ((afterLoop env s).published.isSome = true →
      s.err = false ∧ (afterLoop env s).published = some s.gz) ∧
    (∀ p ∈ sends (afterLoop env s).trace,
      s.err = false ∧ p.rows = s.rows ∧ p.lastID = s.last ∧
        (afterLoop env s).published = some s.gz) := by
  have h0 := sends_eq_nil_of_inLoop hin
  rcases afterLoop_cases env s with ⟨e1, heq⟩ | ⟨e1, e2, heq⟩ | ⟨e1, e2, e3, heq⟩ |
    ⟨e1, e2, e3, e4, heq⟩ | ⟨e1, e2, e3, e4, e5, heq⟩ | ⟨e1, e2, e3, e4, e5, e6, heq⟩ |
    ⟨hash, e1, e2, e3, e4, e5, e6, heq⟩
  all_goals rw [heq]
  all_goals simp [deferred, h0, Event.send?, e1]
  split_ifs <;> simp [Event.send?]

theorem length_pages (fs : List (Fetch D)) :
    ((fs.map (fun f => f.res.hits)).flatten).length =
      (fs.map (fun f => f.res.hits.length)).sum := by
  induction fs with
  | nil => rfl
  | cons f fs ih => simp [ih]

theorem sum_nonempty_pages (fs : List (Fetch D)) :
    (fs.map (fun f => f.res.hits.length)).sum =
      ((fs.filter (fun f => !f.res.hits.isEmpty)).map (fun f => f.res.hits.length)).sum := by
  induction fs with
  | nil => rfl
  | cons f fs ih =>
    cases hh : f.res.hits with
    | nil => simpa [List.filter_cons, hh] using ih
    | cons a as => simp [List.filter_cons, hh, ih]

/-- An entry found at some position of a list is a member of the list. -/
theorem mem_of_index {α : Type} (l : List α) (n : Nat) (a : α) (h : l[n]? = some a) : a ∈ l :=
  List.getElem?_mem h


end LoopLemmas

/-! ## Decimal rendering -/

section Decimal

theorem digit_char (u : Nat) (h : u < 10) :
    (Char.ofNat (48 + u)).isDigit = true ∧ (Char.ofNat (48 + u)).toNat - 48 = u ∧
      Char.ofNat (48 + u) ≠ '-' := by
  interval_cases u <;> decide

theorem decimalLoop_value (fuel : Nat) : ∀ (u : Nat) (acc : List Char), u ≤ fuel →
    (decimalLoop fuel u acc).foldl (fun a c => 10 * a + (c.toNat - 48)) 0 =
      acc.foldl (fun a c => 10 * a + (c.toNat - 48)) u := by
  induction fuel with
  | zero =>
    intro u acc hu
    have : u = 0 := by omega
    subst this
    simp [decimalLoop]
  | succ n ih =>
    intro u acc hu
    unfold decimalLoop
    split_ifs with h
    · simp [(digit_char u h).2.1]
    · rw [ih (u / 10) _ (by omega)]
      simp only [List.foldl_cons]
      rw [(digit_char (u % 10) (Nat.mod_lt _ (by norm_num))).2.1]
      congr 1
      omega

theorem decimalLoop_digits (fuel : Nat) : ∀ (u : Nat) (acc : List Char), u ≤ fuel →
    acc.all Char.isDigit = true → (decimalLoop fuel u acc).all Char.isDigit = true := by
  induction fuel with
  | zero =>
    intro u acc hu hacc
    have : u = 0 := by omega
    subst this
    simpa [decimalLoop, (digit_char 0 (by norm_num)).1] using hacc
  | succ n ih =>
    intro u acc hu hacc
    unfold decimalLoop
    split_ifs with h
    · simpa [(digit_char u h).1] using hacc
    · apply ih (u / 10) _ (by omega)
      simpa [(digit_char (u % 10) (Nat.mod_lt _ (by norm_num))).1] using hacc

theorem decimalLoop_ne_nil (fuel u : Nat) (acc : List Char) : decimalLoop fuel u acc ≠ [] := by
  induction fuel generalizing u acc with
  | zero => simp [decimalLoop]
  | succ n ih =>
    unfold decimalLoop
    split_ifs
    · simp
    · exact ih _ _

theorem parseDecimal_digits (n : Nat) : parseDecimal (decimalDigits n) = some (n : Int) := by
  have hd := decimalLoop_digits n n [] (le_refl _) rfl
  have hv := decimalLoop_value n n [] (le_refl _)
  have hne := decimalLoop_ne_nil n n []
  unfold decimalDigits
  cases hc : decimalLoop n n [] with
  | nil => exact absurd hc hne
  | cons c rest =>
    rw [hc] at hd hv
    have hcd : c.isDigit = true := by
      simp only [List.all_cons, Bool.and_eq_true] at hd
      exact hd.1
    have hcm : c ≠ '-' := by
      rintro rfl
      revert hcd
      decide
    unfold parseDecimal
    simp only [hcm, if_false, hd, if_true]
    simp only [digitsValue, hv]
    simp

theorem parseDecimal_sprintf (i : Int) : parseDecimal (sprintf "%d" [.int i]).data = some i := by
  cases i with
  | ofNat n =>
    simpa [sprintf, sprintfAux, Arg.render] using parseDecimal_digits n
  | negSucc n =>
    have hd := decimalLoop_digits (n + 1) (n + 1) [] (le_refl _) rfl
    have hv := decimalLoop_value (n + 1) (n + 1) [] (le_refl _)
    have hne := decimalLoop_ne_nil (n + 1) (n + 1) []
    simp [sprintf, sprintfAux, Arg.render, parseDecimal, decimalDigits, hne, digitsValue, hv]
    constructor
    · simpa [List.all_eq_true] using hd
    · rw [Int.negSucc_eq]; ring

end Decimal


/-! ## Fetch logs and the page-fetch contract -/

section Contract

variable {D : Deps}

@[simp] theorem fetchedIds_nil : fetchedIds ([] : List (Fetch D)) = [] := rfl

theorem fetchedIds_append (a b : List (Fetch D)) :
    fetchedIds (a ++ b) = fetchedIds a ++ fetchedIds b := by
  simp [fetchedIds]

theorem fetchedIds_single (f : Fetch D) :
    fetchedIds [f] = f.res.hits.map (fun hit => hit.id) := by
  simp [fetchedIds]

/-- The cursor a fetch log ends with is the one returned by its last fetch. -/
theorem run_cursor {env : Env D} {last : Int} {fs : List (Fetch D)} {c : Int}
    (h : Run env last fs c) : c = cursorAfter last fs := by
  induction h with
  | nil => rfl
  | snoc _ _ => simp

/-- The `n`-th fetch of a log asks for 5000 records after the cursor held after
the first `n` fetches, and is answered by the source. -/
theorem run_getElem {env : Env D} {last : Int} {fs : List (Fetch D)} {c : Int}
    (h : Run env last fs c) : ∀ (n : Nat) (f : Fetch D), fs[n]? = some f →
      f = ⟨5000, cursorAfter last (fs.take n),
        env.list n 5000 (cursorAfter last (fs.take n))⟩ := by
  induction h with
  | nil => intro n f hf; simp at hf
  | @snoc fs c hrun ih =>
    intro n f hf
    rcases Nat.lt_or_ge n fs.length with hlt | hge
    · rw [List.getElem?_append_left hlt] at hf
      rw [List.take_append_of_le_length (le_of_lt hlt)]
      exact ih n f hf
    · have hn : n = fs.length := by
        by_contra hne
        have : (fs ++ [(⟨5000, c, env.list fs.length 5000 c⟩ : Fetch D)])[n]? = none := by
          apply List.getElem?_eq_none
          simp
          omega
        rw [this] at hf
        cases hf
      subst hn
      simp at hf
      subst hf
      simp [← run_cursor hrun]

theorem take_succ_of_getElem {α : Type} (l : List α) (n : Nat) (a : α) (h : l[n]? = some a) :
    l.take (n + 1) = l.take n ++ [a] := by
  rw [List.take_succ, h]
  rfl

theorem take_succ_of_none {α : Type} (l : List α) (n : Nat) (h : l[n]? = none) :
    l.take (n + 1) = l.take n := by
  rw [List.take_succ, h]
  simp

/-- Under the page-fetch contract the cursor held after any number of fetches
is the caller's value while no record has been fetched, and afterwards the
greatest identifier fetched so far. -/
theorem run_max {env : Env D} {last : Int} {fs : List (Fetch D)} {c : Int}
    (h : Run env last fs c) (hc : PageContract env.list) (n : Nat) :
    last ≤ cursorAfter last (fs.take n) ∧
    (∀ i ∈ fetchedIds (fs.take n), i ≤ cursorAfter last (fs.take n)) ∧
    ((fetchedIds (fs.take n) = [] ∧ cursorAfter last (fs.take n) = last) ∨
      cursorAfter last (fs.take n) ∈ fetchedIds (fs.take n)) ∧
    cursorAfter last (fs.take n) ≤ cursorAfter last (fs.take (n + 1)) := by
  induction n with
  | zero =>
    refine ⟨by simp, by simp, by simp, ?_⟩
    cases hf : fs[0]? with
    | none => rw [take_succ_of_none fs 0 hf]
    | some f =>
      rw [take_succ_of_getElem fs 0 f hf]
      have hfe := run_getElem h 0 f hf
      obtain ⟨h1, h2, h3⟩ := hc 0 5000 (cursorAfter last (fs.take 0))
      simp only [cursorAfter_snoc]
      rw [hfe]
      simp only
      by_cases hem : (env.list 0 5000 (cursorAfter last (fs.take 0))).hits = []
      · rw [h2 hem]
      · obtain ⟨⟨hit, hm, hid⟩, -⟩ := h3 hem
        rw [← hid]
        exact le_of_lt (h1 hit hm)
  | succ n ih =>
    obtain ⟨ih1, ih2, ih3, ih4⟩ := ih
    have key : last ≤ cursorAfter last (fs.take (n + 1)) ∧
        (∀ i ∈ fetchedIds (fs.take (n + 1)), i ≤ cursorAfter last (fs.take (n + 1))) ∧
        ((fetchedIds (fs.take (n + 1)) = [] ∧ cursorAfter last (fs.take (n + 1)) = last) ∨
          cursorAfter last (fs.take (n + 1)) ∈ fetchedIds (fs.take (n + 1))) := by
      cases hf : fs[n]? with
      | none =>
        rw [take_succ_of_none fs n hf]
        exact ⟨ih1, ih2, ih3⟩
      | some f =>
        rw [take_succ_of_getElem fs n f hf]
        have hfe := run_getElem h n f hf
        obtain ⟨h1, h2, h3⟩ := hc n 5000 (cursorAfter last (fs.take n))
        simp only [cursorAfter_snoc, fetchedIds_append, fetchedIds_single]
        rw [hfe]
        simp only
        by_cases hem : (env.list n 5000 (cursorAfter last (fs.take n))).hits = []
        · rw [h2 hem, hem]
          simpa using ⟨ih1, ih2, ih3⟩
        · obtain ⟨⟨hit, hm, hid⟩, hle⟩ := h3 hem
          have hgt : cursorAfter last (fs.take n) <
              (env.list n 5000 (cursorAfter last (fs.take n))).last := by
            rw [← hid]; exact h1 hit hm
          refine ⟨le_trans ih1 (le_of_lt hgt), ?_, Or.inr ?_⟩
          · intro i hi
            rcases List.mem_append.mp hi with hi | hi
            · exact le_trans (ih2 i hi) (le_of_lt hgt)
            · obtain ⟨x, hx, rfl⟩ := List.mem_map.mp hi
              exact hle x hx
          · exact List.mem_append_right _ (List.mem_map.mpr ⟨hit, hm, hid⟩)
    refine ⟨key.1, key.2.1, key.2.2, ?_⟩
    cases hf : fs[n + 1]? with
    | none => rw [take_succ_of_none fs (n + 1) hf]
    | some f =>
      rw [take_succ_of_getElem fs (n + 1) f hf]
      have hfe := run_getElem h (n + 1) f hf
      obtain ⟨h1, h2, h3⟩ := hc (n + 1) 5000 (cursorAfter last (fs.take (n + 1)))
      simp only [cursorAfter_snoc]
      rw [hfe]
      simp only
      by_cases hem : (env.list (n + 1) 5000 (cursorAfter last (fs.take (n + 1)))).hits = []
      · rw [h2 hem]
      · obtain ⟨⟨hit, hm, hid⟩, -⟩ := h3 hem
        rw [← hid]
        exact le_of_lt (h1 hit hm)

theorem contractList_hits (recs : List (Hit D)) (k limit : Nat) (c : Int) :
    (contractList recs k limit c).hits =
      (recs.filter (fun hit => decide (c < hit.id))).take limit := rfl

theorem contractList_err (recs : List (Hit D)) (k limit : Nat) (c : Int) :
    (contractList recs k limit c).err = false := rfl

theorem contractList_last_nil (recs : List (Hit D)) (k limit : Nat) (c : Int)
    (h : (contractList recs k limit c).hits = []) : (contractList recs k limit c).last = c := by
  rw [contractList_hits] at h
  simp [contractList, h]

theorem contractList_last_some (recs : List (Hit D)) (k limit : Nat) (c : Int) (x : Hit D)
    (h : (contractList recs k limit c).hits.getLast? = some x) :
    (contractList recs k limit c).last = x.id := by
  rw [contractList_hits] at h
  simp [contractList, h]

/-- In a list in ascending order of identifier the last record has the greatest
identifier. -/
theorem le_getLast_of_asc (l : List (Hit D)) (hasc : l.Pairwise (fun a b => a.id < b.id))
    (x : Hit D) (hx : l.getLast? = some x) : ∀ y ∈ l, y.id ≤ x.id := by
  obtain ⟨ys, rfl⟩ := List.getLast?_eq_some_iff.mp hx
  intro y hy
  rcases List.mem_append.mp hy with hy | hy
  · exact le_of_lt ((List.pairwise_append.mp hasc).2.2 y hy x (by simp))
  · simp at hy; subst hy; exact le_refl _

/-- After a page of `limit` records the records past the new cursor are the
records past the old cursor without that page. -/
theorem filter_after_page (recs : List (Hit D))
    (hasc : recs.Pairwise (fun a b => a.id < b.id)) (limit : Nat) (c : Int) (x : Hit D)
    (hx : ((recs.filter (fun hit => decide (c < hit.id))).take limit).getLast? = some x) :
    recs.filter (fun hit => decide (x.id < hit.id)) =
      (recs.filter (fun hit => decide (c < hit.id))).drop limit := by
  have hR : (recs.filter (fun hit => decide (c < hit.id))).Pairwise (fun a b => a.id < b.id) :=
    List.Pairwise.sublist (List.filter_sublist _) hasc
  have hxm : x ∈ (recs.filter (fun hit => decide (c < hit.id))).take limit := by
    obtain ⟨ys, hys⟩ := List.getLast?_eq_some_iff.mp hx
    rw [hys]; simp
  have hxc : c < x.id := by
    have := List.mem_of_mem_take hxm
    simpa using (List.mem_filter.mp this).2
  have h1 : recs.filter (fun hit => decide (x.id < hit.id)) =
      (recs.filter (fun hit => decide (c < hit.id))).filter (fun hit => decide (x.id < hit.id)) := by
    rw [List.filter_filter]
    apply List.filter_congr
    intro y _
    by_cases hy : x.id < y.id
    · simp [hy, lt_trans hxc hy]
    · simp [hy]
  rw [h1]
  generalize recs.filter (fun hit => decide (c < hit.id)) = R at hR hx hxm
  have hsplit := List.take_append_drop limit R
  have hP : (R.take limit ++ R.drop limit).Pairwise (fun a b => a.id < b.id) := by
    rw [hsplit]; exact hR
  obtain ⟨hPt, -, hcross⟩ := List.pairwise_append.mp hP
  conv_lhs => rw [← hsplit]
  rw [List.filter_append]
  have e1 : (R.take limit).filter (fun hit => decide (x.id < hit.id)) = [] := by
    rw [List.filter_eq_nil_iff]
    intro y hy
    have := le_getLast_of_asc _ hPt x hx y hy
    simp
    exact this
  have e2 : (R.drop limit).filter (fun hit => decide (x.id < hit.id)) = R.drop limit := by
    rw [List.filter_eq_self]
    intro y hy
    simpa using hcross x hxm y hy
  rw [e1, e2]
  rfl

/-- The source `contractList` over records in ascending order of identifier
obeys the page-fetch contract. -/
theorem contractList_obeys (recs : List (Hit D))
    (hasc : recs.Pairwise (fun a b => a.id < b.id)) : PageContract (contractList recs) := by
  intro k limit c
  refine ⟨?_, contractList_last_nil recs k limit c, ?_⟩
  · intro hit hm
    rw [contractList_hits] at hm
    simpa using (List.mem_filter.mp (List.mem_of_mem_take hm)).2
  · intro hne
    cases hl : (contractList recs k limit c).hits.getLast? with
    | none => exact absurd (List.getLast?_eq_none_iff.mp hl) hne
    | some x =>
      rw [contractList_last_some recs k limit c x hl]
      have hxm : x ∈ (contractList recs k limit c).hits := by
        obtain ⟨ys, hys⟩ := List.getLast?_eq_some_iff.mp hl
        rw [hys]; simp
      refine ⟨⟨x, hxm, rfl⟩, ?_⟩
      apply le_getLast_of_asc _ _ x hl
      rw [contractList_hits]
      exact List.Pairwise.sublist ((List.take_sublist _ _).trans (List.filter_sublist _)) hasc

/-- The records `sampleHit 1`, ..., `sampleHit n` are in ascending order. -/
theorem sample_asc (n : Nat) :
    ((List.range n).map (fun i => sampleHit (i + 1))).Pairwise (fun a b => a.id < b.id) := by
  rw [List.pairwise_map]
  have := List.pairwise_lt_range n
  refine List.Pairwise.imp ?_ this
  intro a b hab
  simp [sampleHit]
  exact_mod_cast hab

end Contract

/-! ## The loop over a source that obeys the contract -/

section ContractLoop

variable {D : Deps}

theorem pageSizes_zero : pageSizes 0 = [0] := by decide

theorem pageSizes_pos (m : Nat) (hm : 0 < m) :
    pageSizes m = min 5000 m :: pageSizes (m - 5000) := by
  rcases Nat.lt_or_ge m 5000 with hlt | hge
  · have h1 : m / 5000 = 0 := Nat.div_eq_of_lt hlt
    have h2 : m % 5000 = m := Nat.mod_eq_of_lt hlt
    have h3 : m - 5000 = 0 := by omega
    have h4 : min 5000 m = m := by omega
    have h5 : m ≠ 0 := by omega
    rw [h3, h4, pageSizes_zero]
    simp [pageSizes, h1, h2, h5]
  · have h1 : m / 5000 = (m - 5000) / 5000 + 1 := by omega
    have h2 : m % 5000 = (m - 5000) % 5000 := by omega
    have h4 : min 5000 m = 5000 := by omega
    rw [h4]
    simp only [pageSizes, h1, h2, List.replicate_succ, List.cons_append]

theorem sum_pageSizes (n : Nat) : (pageSizes n).sum = n := by
  unfold pageSizes
  split_ifs with h
  · simp
    have := Nat.div_add_mod n 5000
    omega
  · simp
    have := Nat.div_add_mod n 5000
    omega

theorem length_pageSizes (n : Nat) : (pageSizes n).length = (n + 4999) / 5000 + 1 := by
  unfold pageSizes
  split_ifs with h
  · simp
    omega
  · simp
    omega

/-- More fuel does not change the state a finished loop returns. -/
theorem loop_mono (env : Env D) (k : Nat) : ∀ (fuel : Nat) (s s' : State D),
    loop env fuel s = some s' → loop env (fuel + k) s = some s' := by
  intro fuel
  induction fuel with
  | zero => intro s s' h; simp [loop] at h
  | succ n ih =>
    intro s s' h
    rw [show n + 1 + k = (n + k) + 1 by omega, loop_succ]
    rw [loop_succ] at h
    split_ifs at h ⊢ with hb
    · exact h
    · exact ih _ _ h


/-- When no record is left past the cursor the next pass fetches the empty page
and the loop ends. -/
theorem loop_contract_nil (env : Env D) (recs : List (Hit D))
    (henv : env.list = contractList recs) (fuel : Nat) (s : State D)
    (hR : recs.filter (fun hit => decide (s.last < hit.id)) = []) :
    ∃ s', loop env (fuel + 1) s = some s' ∧ s'.err = false ∧
      (fetches s'.trace).map (fun f => f.res.hits.length) =
        (fetches s.trace).map (fun f => f.res.hits.length) ++ [0] ∧
      fetched s'.trace = fetched s.trace := by
  have hh : (env.list s.calls 5000 s.last).hits = [] := by
    rw [henv, contractList_hits, hR]; rfl
  have he : (env.list s.calls 5000 s.last).err = false := by
    rw [henv]; rfl
  have e := iter_stop env s (Or.inl hh)
  refine ⟨(iter env s).1, ?_, ?_, ?_, ?_⟩
  · rw [loop_succ, e]; rfl
  · rw [e]; exact he
  · rw [e]; simp [Event.fetch?, hh]
  · rw [e]; simp [fetched, Event.fetch?, hh]

/-- The loop over a source that obeys the contract, never errors and whose
flushes succeed: from a state with `m` records left past the cursor it ends
within `fuel + 1` passes when `m ≤ 5000 * fuel`, having fetched these records in
order, in pages of the lengths `pageSizes m`. -/
theorem loop_contract (env : Env D) (recs : List (Hit D))
    (hasc : recs.Pairwise (fun a b => a.id < b.id))
    (henv : env.list = contractList recs) (hfl : ∀ k, env.flushErr k = false) :
    ∀ (fuel : Nat) (s : State D),
      (recs.filter (fun hit => decide (s.last < hit.id))).length ≤ 5000 * fuel →
      ∃ s', loop env (fuel + 1) s = some s' ∧ s'.err = false ∧
        (fetches s'.trace).map (fun f => f.res.hits.length) =
          (fetches s.trace).map (fun f => f.res.hits.length) ++
            pageSizes (recs.filter (fun hit => decide (s.last < hit.id))).length ∧
        fetched s'.trace =
          fetched s.trace ++ recs.filter (fun hit => decide (s.last < hit.id)) := by
  intro fuel
  induction fuel with
  | zero =>
    intro s hm
    have hR : recs.filter (fun hit => decide (s.last < hit.id)) = [] :=
      List.length_eq_zero.mp (by omega)
    obtain ⟨s', h1, h2, h3, h4⟩ := loop_contract_nil env recs henv 0 s hR
    exact ⟨s', h1, h2, by rw [h3, hR]; simp [pageSizes_zero], by rw [h4, hR]; simp⟩
  | succ n ih =>
    intro s hm
    by_cases hR : recs.filter (fun hit => decide (s.last < hit.id)) = []
    · obtain ⟨s', h1, h2, h3, h4⟩ := loop_contract_nil env recs henv (n + 1) s hR
      exact ⟨s', h1, h2, by rw [h3, hR]; simp [pageSizes_zero], by rw [h4, hR]; simp⟩
    · have hpos : 0 < (recs.filter (fun hit => decide (s.last < hit.id))).length :=
        List.length_pos.mpr hR
      have hh : (env.list s.calls 5000 s.last).hits =
          (recs.filter (fun hit => decide (s.last < hit.id))).take 5000 := by
        rw [henv, contractList_hits]
      have hne : (env.list s.calls 5000 s.last).hits ≠ [] := by
        rw [hh]
        intro hnil
        have hz : ((recs.filter (fun hit => decide (s.last < hit.id))).take 5000).length = 0 := by
          rw [hnil]; rfl
        rw [List.length_take] at hz
        omega
      have he : (env.list s.calls 5000 s.last).err = false := by rw [henv]; rfl
      have e := iter_ok env s hne he (hfl _)
      cases hl : (env.list s.calls 5000 s.last).hits.getLast? with
      | none => exact absurd (List.getLast?_eq_none_iff.mp hl) hne
      | some x =>
        have hlast : (env.list s.calls 5000 s.last).last = x.id := by
          rw [henv] at hl ⊢
          exact contractList_last_some recs _ _ _ x hl
        have hrest := filter_after_page recs hasc 5000 s.last x (by rw [← hh]; exact hl)
        have hs1 : (iter env s).1.last = x.id := by rw [e]; exact hlast
        have hlen : (recs.filter (fun hit => decide ((iter env s).1.last < hit.id))).length
            ≤ 5000 * n := by
          rw [hs1, hrest, List.length_drop]
          omega
        obtain ⟨s', h1, h2, h3, h4⟩ := ih (iter env s).1 hlen
        refine ⟨s', ?_, h2, ?_, ?_⟩
        · rw [loop_succ]
          have hb : (iter env s).2 = false := by rw [e]
          rw [hb]
          exact h1
        · rw [h3, hs1, hrest, pageSizes_pos _ hpos, List.length_drop, e]
          have hf : fetches (if env.prod = true then [(Event.sleep 500 : Event D)] else []) = [] := by
            split <;> simp [Event.fetch?]
          have hlenp : (env.list s.calls 5000 s.last).hits.length =
              min 5000 (recs.filter (fun hit => decide (s.last < hit.id))).length := by
            rw [hh, List.length_take]
          simp [Event.fetch?, hf, hlenp]
        · rw [h4, hs1, hrest, e]
          have hf : fetches (if env.prod = true then [(Event.sleep 500 : Event D)] else []) = [] := by
            split <;> simp [Event.fetch?]
          simp only [fetched, fetches_append, fetches_cons, fetches_nil, hf, Event.fetch?,
            fetches_map_write, List.append_nil, List.map_append, List.map_cons, List.map_nil,
            List.flatten_append, List.flatten_cons, List.flatten_nil, hh, List.append_assoc,
            List.take_append_drop]


/-- The state in which the loop of a run ends satisfies `Done`. -/
theorem loop_done (env : Env D) (fuel : Nat) (last : Int) (s : State D)
    (h : loop env fuel (start D last) = some s) : Done env last s := by
  obtain ⟨sl, hg, hb, hs⟩ :=
    loop_exit env (Good env last) (good_iter env last) fuel _ _ (good_start env last) h
  rw [hs]
  exact done_of_break env last sl hg hb

end ContractLoop

/-! ## Publication and notification (C3, C5) -/

section Claims

variable {D : Deps}

/-- C3: in a finished run of `Export`, a rename is attempted exactly when the
loop ended on a fetch that returned no record and no error, every flush reported
no error, and closing the gzip writer, syncing the file and closing the file all
succeeded; and a rename, when attempted, is from the temporary file to
`ExportFile(site)`.  In every other run the trace holds no rename. -/
theorem rename_iff_clean_run (env : Env D) (fuel : Nat) (last : Int) (r : Outcome D)
    (h : Export env fuel last = some r) :
    ((∃ src dst err, Event.rename src dst err ∈ r.trace) ↔
      ((∃ f, (fetches r.trace).getLast? = some f ∧ f.res.hits = [] ∧ f.res.err = false) ∧
       (∀ b ∈ flushes r.trace, b = false) ∧
       Event.gzClose false ∈ r.trace ∧ Event.sync false ∈ r.trace ∧
       Event.fpClose false ∈ r.trace)) ∧
    (∀ src dst err, Event.rename src dst err ∈ r.trace →
      src = env.tmpName ∧ dst = ExportFile env.tempDir env.site) := by
  obtain ⟨s, hd, rfl⟩ := export_done env fuel last r h
  obtain ⟨ha, hb⟩ := afterLoop_rename env s hd.inLoop
  refine ⟨?_, hb⟩
  rw [ha, afterLoop_fetches, afterLoop_flushes, hd.errIff]
  tauto

/-- The run `twoEnv` (two records, then the empty page, every call succeeds)
finishes within two passes and publishes. -/
theorem rename_iff_clean_run_witness :
    ∃ r, Export twoEnv 2 0 = some r ∧ r.published.isSome = true ∧
      ((∃ src dst err, Event.rename src dst err ∈ r.trace) ↔
        ((∃ f, (fetches r.trace).getLast? = some f ∧ f.res.hits = [] ∧ f.res.err = false) ∧
         (∀ b ∈ flushes r.trace, b = false) ∧
         Event.gzClose false ∈ r.trace ∧ Event.sync false ∈ r.trace ∧
         Event.fpClose false ∈ r.trace)) ∧
      (∀ src dst err, Event.rename src dst err ∈ r.trace →
        src = twoEnv.tmpName ∧ dst = ExportFile twoEnv.tempDir twoEnv.site) :=
  ⟨_, rfl, rfl, rename_iff_clean_run twoEnv 2 0 _ rfl⟩

/-- In a finished run an error event excludes a notification, and a notification
comes right after the successful rename and the successful hashing. -/
theorem notify_facts (env : Env D) (fuel : Nat) (last : Int) (r : Outcome D)
    (h : Export env fuel last = some r) :
    (((∃ f ∈ fetches r.trace, f.res.err = true) ∨ true ∈ flushes r.trace ∨
        Event.gzClose true ∈ r.trace ∨ Event.sync true ∈ r.trace ∨
        Event.fpClose true ∈ r.trace ∨ (∃ src dst, Event.rename src dst true ∈ r.trace) ∨
        (∃ name, Event.hashFile name none ∈ r.trace)) →
      sends r.trace = []) ∧
    (∀ rcpt p e, Event.send rcpt p e ∈ r.trace →
      sends r.trace = [p] ∧
      [Event.rename env.tmpName (ExportFile env.tempDir env.site) false,
        Event.hashFile (ExportFile env.tempDir env.site) (some p.hash),
        Event.send rcpt p e] <:+: r.trace) := by
  obtain ⟨s, hd, rfl⟩ := export_done env fuel last r h
  have h0 := sends_eq_nil_of_inLoop hd.inLoop
  have h1 : ∀ a b c, Event.send a b c ∉ s.trace :=
    fun a b c => not_mem_of_inLoop hd.inLoop _ rfl
  have h2 : ∀ a, Event.gzClose a ∉ s.trace := fun a => not_mem_of_inLoop hd.inLoop _ rfl
  have h3 : ∀ a, Event.sync a ∉ s.trace := fun a => not_mem_of_inLoop hd.inLoop _ rfl
  have h4 : ∀ a, Event.fpClose a ∉ s.trace := fun a => not_mem_of_inLoop hd.inLoop _ rfl
  have h5 : ∀ a b c, Event.rename a b c ∉ s.trace :=
    fun a b c => not_mem_of_inLoop hd.inLoop _ rfl
  have h6 : ∀ a b, Event.hashFile a b ∉ s.trace :=
    fun a b => not_mem_of_inLoop hd.inLoop _ rfl
  have herr : s.err = false → (∀ f ∈ fetches s.trace, f.res.err = false) ∧
      true ∉ flushes s.trace := by
    intro he
    obtain ⟨⟨f, hf, _, hfe⟩, hfl⟩ := hd.errIff.mp he
    refine ⟨fun g hg => ?_, fun hm => by cases hfl true hm⟩
    rcases List.eq_nil_or_concat (fetches s.trace) with hnil | ⟨fs, g', hfs⟩
    · rw [hnil] at hg; cases hg
    · have hp := hd.pages
      rw [hfs] at hf hg hp
      simp at hf hp
      subst hf
      simp at hg
      rcases hg with hg | hg
      · exact (hp g hg).2
      · subst hg; exact hfe
  rw [afterLoop_fetches, afterLoop_flushes]
  rcases afterLoop_cases env s with ⟨e1, heq⟩ | ⟨e1, e2, heq⟩ | ⟨e1, e2, e3, heq⟩ |
    ⟨e1, e2, e3, e4, heq⟩ | ⟨e1, e2, e3, e4, e5, heq⟩ | ⟨e1, e2, e3, e4, e5, e6, heq⟩ |
    ⟨hash, e1, e2, e3, e4, e5, e6, heq⟩
  all_goals rw [heq]
  · simp [deferred, h0, h1, Event.send?]
  · simp [deferred, h0, h1, Event.send?]
  · simp [deferred, h0, h1, Event.send?]
  · simp [deferred, h0, h1, Event.send?]
  · simp [deferred, h0, h1, Event.send?]
  · simp [deferred, h0, h1, Event.send?]
  · obtain ⟨hf, hfl⟩ := herr e1
    constructor
    · intro hfail
      exfalso
      rcases hfail with ⟨f, hf', hfe⟩ | hfail | hfail | hfail | hfail | ⟨a, b, hfail⟩ |
        ⟨a, hfail⟩
      · rw [hf f hf'] at hfe; cases hfe
      · exact hfl hfail
      · revert hfail; split_ifs <;> simp [deferred, h2]
      · revert hfail; split_ifs <;> simp [deferred, h3]
      · revert hfail; split_ifs <;> simp [deferred, h4]
      · revert hfail; split_ifs <;> simp [deferred, h5]
      · revert hfail; split_ifs <;> simp [deferred, h6]
    · intro rcpt p e hp
      have hp' : rcpt = env.user.email ∧
          p = (⟨env.site, s.last, sizeText D env.statSize, s.rows, hash⟩ : Payload) ∧
          e = env.sendErr := by
        revert hp; split_ifs <;> simp [deferred, h1]
      obtain ⟨rfl, rfl, rfl⟩ := hp'
      constructor
      · split_ifs <;> simp [deferred, h0, Event.send?]
      · exact ⟨s.trace ++ [Event.gzClose false, Event.sync false,
          Event.stat env.statSize, Event.fpClose false],
          (if env.sendErr then [Event.logError] else []) ++ deferred D, by simp⟩

/-- C5: in a finished run of `Export` in which a fetch, a flush, the closing of
the gzip writer, the sync, the closing of the file, the rename or the hashing
reports an error, no notification is sent; a notification, when sent, is the
only one and comes right after the successful rename to `ExportFile(site)` and
the successful hashing of that file.  And a run whose first fetch returns 5000
records that are flushed without error and whose second fetch returns an error
finishes within two passes with the temporary file removed, nothing published
and no notification. -/
theorem notify_only_after_publish (env : Env D) (fuel : Nat) (last : Int) :
    (∀ r, Export env fuel last = some r →
      (((∃ f ∈ fetches r.trace, f.res.err = true) ∨ true ∈ flushes r.trace ∨
          Event.gzClose true ∈ r.trace ∨ Event.sync true ∈ r.trace ∨
          Event.fpClose true ∈ r.trace ∨ (∃ src dst, Event.rename src dst true ∈ r.trace) ∨
          (∃ name, Event.hashFile name none ∈ r.trace)) →
        sends r.trace = []) ∧
      (∀ rcpt p e, Event.send rcpt p e ∈ r.trace →
        sends r.trace = [p] ∧
        [Event.rename env.tmpName (ExportFile env.tempDir env.site) false,
          Event.hashFile (ExportFile env.tempDir env.site) (some p.hash),
          Event.send rcpt p e] <:+: r.trace)) ∧
    ((env.list 0 5000 last).hits.length = 5000 ∧ (env.list 0 5000 last).err = false →
      env.flushErr 0 = false →
      (env.list 1 5000 (env.list 0 5000 last).last).err = true →
      ∃ r, Export env 2 last = some r ∧ (writes r.trace).length = 5001 ∧
        r.tmpExists = false ∧ r.published = none ∧ sends r.trace = [] ∧
        (∃ f ∈ fetches r.trace, f.res.err = true)) :=
  ⟨fun r h => notify_facts env fuel last r h, export_second_fetch_error env last⟩

/-- The run `secondFetchFailsEnv`: 5000 rows are written, the second fetch
fails, the temporary file is removed and no notification is sent. -/
theorem notify_only_after_publish_witness :
    ∃ r, Export secondFetchFailsEnv 2 0 = some r ∧ (writes r.trace).length = 5001 ∧
      r.tmpExists = false ∧ r.published = none ∧ sends r.trace = [] ∧
      (∃ f ∈ fetches r.trace, f.res.err = true) :=
  (notify_only_after_publish secondFetchFailsEnv 2 0).2
    ⟨by simp [secondFetchFailsEnv, quietEnv, secondFetchFails], rfl⟩ rfl rfl

end Claims

/-! ## Row count and the empty export (C2, C4) -/

section Claims

variable {D : Deps}

/-- C2, evaluated on the code: in a run that fetches no record and publishes,
the header row has been handed to the CSV writer, but the file moved to
`ExportFile(site)` decompresses to no row at all: the CSV writer is flushed only
inside the loop, after a non-empty page, so the header never reaches the gzip
writer.  The claim asks for exactly the header row. -/
theorem empty_source_publishes_no_header (env : Env D) (fuel : Nat) (last : Int)
    (r : Outcome D) (h : Export env fuel last = some r)
    (hempty : fetched r.trace = []) (hpub : r.published.isSome = true) :
    writes r.trace = [headerRow] ∧ r.published = some [] ∧
      r.published ≠ some [headerRow] ∧ (∀ p ∈ sends r.trace, p.rows = 0) := by
  obtain ⟨s, hd, rfl⟩ := export_done env fuel last r h
  obtain ⟨ha, hb⟩ := afterLoop_published env s hd.inLoop
  obtain ⟨herr, hp⟩ := ha hpub
  rw [afterLoop_fetched] at hempty
  have hgz := hd.gz herr
  have hw := hd.written herr
  have hr := hd.rows herr
  rw [hempty] at hgz hw hr
  simp at hgz hw hr
  rw [afterLoop_writes, hp, hgz]
  refine ⟨hw, rfl, by simp, fun p hpm => ?_⟩
  rw [(hb p hpm).2.1, hr]

/-- The run `emptyEnv` (the first fetch returns the empty page, every call
succeeds) meets the hypotheses of `empty_source_publishes_no_header`; its
notification reports 0 rows. -/
theorem empty_source_publishes_no_header_witness :
    ∃ r, Export emptyEnv 1 0 = some r ∧ (sends r.trace).map (fun p => p.rows) = [0] ∧
      writes r.trace = [headerRow] ∧ r.published = some [] ∧
      r.published ≠ some [headerRow] ∧ (∀ p ∈ sends r.trace, p.rows = 0) :=
  ⟨_, rfl, by decide, empty_source_publishes_no_header emptyEnv 1 0 _ rfl rfl rfl⟩

/-- C4: in a finished run of `Export` that sends its notification, whatever the
pages the source returned, the row count in the notification is the number of
records handed to the CSV writer (the rows written are the header row and then
one row per fetched record), and it is the sum of the lengths of the pages
fetched, which is also the sum over the non-empty pages. -/
theorem reported_rows_eq_written (env : Env D) (fuel : Nat) (last : Int) (r : Outcome D)
    (h : Export env fuel last = some r) (p : Payload) (hp : p ∈ sends r.trace) :
    writes r.trace = headerRow :: (fetched r.trace).map (hitRow D) ∧
      p.rows + 1 = (writes r.trace).length ∧
      p.rows = ((fetches r.trace).map (fun f => f.res.hits.length)).sum ∧
      p.rows = (((fetches r.trace).filter (fun f => !f.res.hits.isEmpty)).map
        (fun f => f.res.hits.length)).sum := by
  obtain ⟨s, hd, rfl⟩ := export_done env fuel last r h
  obtain ⟨herr, hrows, -, -⟩ := (afterLoop_published env s hd.inLoop).2 p hp
  have hw := hd.written herr
  have hr := hd.rows herr
  rw [afterLoop_writes, afterLoop_fetched, afterLoop_fetches, hrows, hr, hw]
  refine ⟨rfl, by simp, length_pages _, ?_⟩
  rw [← sum_nonempty_pages]
  exact length_pages _

/-- The run `twoEnv` sends one notification, with row count 2. -/
theorem reported_rows_eq_written_witness :
    ∃ r, Export twoEnv 2 0 = some r ∧ ∃ p, sends r.trace = [p] ∧ p.rows = 2 ∧
      writes r.trace = headerRow :: (fetched r.trace).map (hitRow plainDeps) ∧
      p.rows + 1 = (writes r.trace).length ∧
      p.rows = ((fetches r.trace).map (fun f => f.res.hits.length)).sum ∧
      p.rows = (((fetches r.trace).filter (fun f => !f.res.hits.isEmpty)).map
        (fun f => f.res.hits.length)).sum :=
  ⟨_, rfl, _, rfl, rfl, reported_rows_eq_written twoEnv 2 0 _ rfl _ (mem_of_index _ 0 _ rfl)⟩

end Claims

/-! ## Failure paths after the loop (C1, C6) -/

section Claims

variable {D : Deps}

/-- A loop that ends without error has seen no fetch error and no flush error. -/
theorem done_clean {env : Env D} {last : Int} {s : State D} (hd : Done env last s)
    (he : s.err = false) :
    (∀ f ∈ fetches s.trace, f.res.err = false) ∧ true ∉ flushes s.trace := by
  obtain ⟨⟨f, hf, _, hfe⟩, hfl⟩ := hd.errIff.mp he
  refine ⟨fun g hg => ?_, fun hm => by cases hfl true hm⟩
  rcases List.eq_nil_or_concat (fetches s.trace) with hnil | ⟨fs, g', hfs⟩
  · rw [hnil] at hg; cases hg
  · have hp := hd.pages
    rw [hfs] at hf hg hp
    simp at hf hp
    subst hf
    simp at hg
    rcases hg with hg | hg
    · exact (hp g hg).2
    · subst hg; exact hfe

/-- C1, evaluated on the code.  In a finished run of `Export` in which a fetch or
a flush reports an error, the temporary file is removed and nothing is renamed
or published, as the claim says.  But in a run whose loop ends on an empty page
without error and with every flush clean, and in which closing the gzip writer
fails, `Export` returns while the temporary file still exists: no `os.Remove` is
called (and nothing is renamed or published).  The claim asks for the temporary
file to be gone in this case too. -/
theorem cleanup_on_failure (env : Env D) (fuel : Nat) (last : Int) (r : Outcome D)
    (h : Export env fuel last = some r) :
    (((∃ f ∈ fetches r.trace, f.res.err = true) ∨ true ∈ flushes r.trace) →
      r.tmpExists = false ∧ r.published = none ∧ Event.remove env.tmpName ∈ r.trace ∧
        (∀ src dst err, Event.rename src dst err ∉ r.trace)) ∧
    ((∃ f, (fetches r.trace).getLast? = some f ∧ f.res.hits = [] ∧ f.res.err = false) →
      (∀ b ∈ flushes r.trace, b = false) → Event.gzClose true ∈ r.trace →
      r.tmpExists = true ∧ r.published = none ∧ (∀ name, Event.remove name ∉ r.trace) ∧
        (∀ src dst err, Event.rename src dst err ∉ r.trace)) := by
  obtain ⟨s, hd, rfl⟩ := export_done env fuel last r h
  rw [afterLoop_fetches, afterLoop_flushes]
  have h1 : ∀ a b c, Event.rename a b c ∉ s.trace :=
    fun a b c => not_mem_of_inLoop hd.inLoop _ rfl
  have h2 : ∀ a, Event.gzClose a ∉ s.trace := fun a => not_mem_of_inLoop hd.inLoop _ rfl
  have h3 : ∀ a, Event.remove a ∉ s.trace := fun a => not_mem_of_inLoop hd.inLoop _ rfl
  constructor
  · intro hfail
    have herr : s.err = true := by
      cases he : s.err with
      | true => rfl
      | false =>
        obtain ⟨hf, hfl⟩ := done_clean hd he
        rcases hfail with ⟨f, hfm, hfe⟩ | hfail
        · rw [hf f hfm] at hfe; cases hfe
        · exact absurd hfail hfl
    rcases afterLoop_cases env s with ⟨e1, heq⟩ | ⟨e1, e2, heq⟩ | ⟨e1, e2, e3, heq⟩ |
      ⟨e1, e2, e3, e4, heq⟩ | ⟨e1, e2, e3, e4, e5, heq⟩ | ⟨e1, e2, e3, e4, e5, e6, heq⟩ |
      ⟨hash, e1, e2, e3, e4, e5, e6, heq⟩
    · rw [heq]; simp [deferred, h1]
    all_goals rw [herr] at e1; cases e1
  · intro hfetch hflush hgz
    have herr : s.err = false := hd.errIff.mpr ⟨hfetch, hflush⟩
    rcases afterLoop_cases env s with ⟨e1, heq⟩ | ⟨e1, e2, heq⟩ | ⟨e1, e2, e3, heq⟩ |
      ⟨e1, e2, e3, e4, heq⟩ | ⟨e1, e2, e3, e4, e5, heq⟩ | ⟨e1, e2, e3, e4, e5, e6, heq⟩ |
      ⟨hash, e1, e2, e3, e4, e5, e6, heq⟩
    · rw [herr] at e1; cases e1
    · rw [heq]; simp [deferred, h1, h3]
    all_goals
      exfalso
      rw [heq] at hgz
      revert hgz
      simp [deferred, h2]

/-- The run `finalizeFailEnv` (two records, then the empty page, then the gzip
writer fails to close): the temporary file is still there when `Export`
returns. -/
theorem cleanup_on_failure_witness :
    ∃ r, Export finalizeFailEnv 2 0 = some r ∧
      r.tmpExists = true ∧ r.published = none ∧ (∀ name, Event.remove name ∉ r.trace) ∧
      (∀ src dst err, Event.rename src dst err ∉ r.trace) :=
  ⟨_, rfl, (cleanup_on_failure finalizeFailEnv 2 0 _ rfl).2
    ⟨_, rfl, rfl, rfl⟩ (by decide) (mem_of_index _ 6 _ rfl)⟩

/-- C6, evaluated on the code: in a run in which the rename to `ExportFile(site)`
fails, `Export` returns while the temporary file still exists: no `os.Remove`
is called on it, and nothing is published or notified.  The claim asks for the
temporary file to be removed. -/
theorem rename_error_keeps_tmp (env : Env D) (fuel : Nat) (last : Int) (r : Outcome D)
    (h : Export env fuel last = some r)
    (hren : ∃ src dst, Event.rename src dst true ∈ r.trace) :
    r.tmpExists = true ∧ r.published = none ∧ (∀ name, Event.remove name ∉ r.trace) ∧
      sends r.trace = [] := by
  obtain ⟨s, hd, rfl⟩ := export_done env fuel last r h
  have h0 := sends_eq_nil_of_inLoop hd.inLoop
  have h1 : ∀ a b c, Event.rename a b c ∉ s.trace :=
    fun a b c => not_mem_of_inLoop hd.inLoop _ rfl
  have h3 : ∀ a, Event.remove a ∉ s.trace := fun a => not_mem_of_inLoop hd.inLoop _ rfl
  obtain ⟨src, dst, hren⟩ := hren
  rcases afterLoop_cases env s with ⟨e1, heq⟩ | ⟨e1, e2, heq⟩ | ⟨e1, e2, e3, heq⟩ |
    ⟨e1, e2, e3, e4, heq⟩ | ⟨e1, e2, e3, e4, e5, heq⟩ | ⟨e1, e2, e3, e4, e5, e6, heq⟩ |
    ⟨hash, e1, e2, e3, e4, e5, e6, heq⟩
  · rw [heq] at hren; simp [deferred, h1] at hren
  · rw [heq] at hren; simp [deferred, h1] at hren
  · rw [heq] at hren; simp [deferred, h1] at hren
  · rw [heq] at hren; simp [deferred, h1] at hren
  · rw [heq]; simp [deferred, h0, h3, Event.send?]
  · rw [heq] at hren; simp [deferred, h1] at hren
  · rw [heq] at hren; simp [deferred, h1] at hren

/-- The run `renameFailEnv` (two records, everything succeeds up to the rename,
which fails) meets the hypothesis of `rename_error_keeps_tmp`. -/
theorem rename_error_keeps_tmp_witness :
    ∃ r, Export renameFailEnv 2 0 = some r ∧
      r.tmpExists = true ∧ r.published = none ∧ (∀ name, Event.remove name ∉ r.trace) ∧
      sends r.trace = [] :=
  ⟨_, rfl, rename_error_keeps_tmp renameFailEnv 2 0 _ rfl
    ⟨_, _, mem_of_index _ 10 _ rfl⟩⟩

end Claims

/-! ## Content of the artifact and its path (C7, C10) -/

section Claims

variable {D : Deps}

/-- C7: in a finished run of `Export` that publishes and in which the source
supplied at least one record, the rows that reached the gzip writer, and so the
rows of the published file, are the header row followed by one row per record
fetched, in the order of the fetches and of the records inside each page.  The
header names the ten columns; the row of a record has the ten fields in that
order, with `Event` the word `true` or `false`, `Bot` and `Session` decimal
integers that read back as the record's values, and an absent screen size
rendered as the empty field. -/
theorem published_rows (env : Env D) (fuel : Nat) (last : Int) (r : Outcome D)
    (h : Export env fuel last = some r) (hpub : r.published.isSome = true)
    (hne : fetched r.trace ≠ []) :
    r.published = some (headerRow :: (fetched r.trace).map (hitRow D)) ∧
    headerRow = ["Path", "Title", "Event", "Bot", "Session", "Referrer", "Browser",
      "Screen size", "Location", "Date"] ∧
    (∀ hit : Hit D, ∃ ev bot sess size date,
      hitRow D hit =
        [hit.path, hit.title, ev, bot, sess, hit.ref, hit.browser, size, hit.location, date] ∧
      ev = (if hit.event then "true" else "false") ∧
      parseDecimal bot.data = some hit.bot ∧
      parseDecimal sess.data = some hit.session ∧
      (hit.size = [] → size = "")) := by
  obtain ⟨s, hd, rfl⟩ := export_done env fuel last r h
  obtain ⟨herr, hp⟩ := (afterLoop_published env s hd.inLoop).1 hpub
  rw [afterLoop_fetched] at hne ⊢
  refine ⟨?_, rfl, fun hit => ?_⟩
  · rw [hp, hd.gz herr]
    cases hf : fetched s.trace with
    | nil => exact absurd hf hne
    | cons a as => simp
  · refine ⟨_, _, _, _, _, rfl, ?_, parseDecimal_sprintf _, parseDecimal_sprintf _, ?_⟩
    · cases hit.event <;> rfl
    · intro hs
      simp [zfloatJoin, hs, String.intercalate]

/-- The run `twoEnv` publishes the header row and the rows of its two records. -/
theorem published_rows_witness :
    ∃ r, Export twoEnv 2 0 = some r ∧
      r.published = some [headerRow,
        ["/p", "t", "false", "0", "1", "", "", "", "", "0"],
        ["/p", "t", "false", "0", "2", "", "", "", "", "0"]] ∧
      r.published = some (headerRow :: (fetched r.trace).map (hitRow plainDeps)) :=
  ⟨_, rfl, by decide, (published_rows twoEnv 2 0 _ rfl rfl (by
    intro hnil
    have := congrArg List.length hnil
    revert this
    decide)).1⟩

/-- C10: for a fixed temporary directory, `ExportFile` is the temporary
directory, then `/goatcounter-export-`, then the code of the site, then
`.csv.gz`; two sites get the same path exactly when their codes are equal. -/
theorem exportFile_injective (tempDir : String) (s1 s2 : Site) :
    ExportFile tempDir s1 = tempDir ++ "/goatcounter-export-" ++ s1.code ++ ".csv.gz" ∧
    (ExportFile tempDir s1 = ExportFile tempDir s2 ↔ s1.code = s2.code) := by
  have hform : ∀ s : Site,
      ExportFile tempDir s = tempDir ++ "/goatcounter-export-" ++ s.code ++ ".csv.gz" := by
    intro s
    apply String.ext
    simp [ExportFile, sprintf, sprintfAux, Arg.render]
  refine ⟨hform s1, ?_, ?_⟩
  · intro heq
    rw [hform s1, hform s2] at heq
    have hd := congrArg String.data heq
    simp only [String.data_append] at hd
    have h1 := List.append_cancel_right hd
    have h2 := List.append_cancel_left h1
    exact String.ext h2
  · intro hc
    rw [hform s1, hform s2, hc]

end Claims

/-! ## The cursor (C9) -/

section Claims

variable {D : Deps}

/-- C9: when the source obeys the page-fetch contract, in a finished run of
`Export` started with cursor `last` the cursor held after the first `n` fetches
is `last` while no record has been fetched and afterwards the greatest
identifier among the records fetched so far; it never decreases from one fetch
to the next; each fetch is called with the cursor held at that point; and the
cursor in the notification is the one held after all fetches. -/
theorem cursor_is_max (env : Env D) (fuel : Nat) (last : Int) (r : Outcome D)
    (h : Export env fuel last = some r) (hc : PageContract env.list) :
    (∀ n, ((fetchedIds ((fetches r.trace).take n) = [] ∧
            cursorAfter last ((fetches r.trace).take n) = last) ∨
          cursorAfter last ((fetches r.trace).take n) ∈
            fetchedIds ((fetches r.trace).take n)) ∧
        (∀ i ∈ fetchedIds ((fetches r.trace).take n),
          i ≤ cursorAfter last ((fetches r.trace).take n))) ∧
    (∀ n, cursorAfter last ((fetches r.trace).take n) ≤
        cursorAfter last ((fetches r.trace).take (n + 1))) ∧
    (∀ n f, (fetches r.trace)[n]? = some f →
        f.cursor = cursorAfter last ((fetches r.trace).take n)) ∧
    (∀ p ∈ sends r.trace, p.lastID = cursorAfter last (fetches r.trace)) := by
  obtain ⟨s, hd, rfl⟩ := export_done env fuel last r h
  rw [afterLoop_fetches]
  refine ⟨fun n => ?_, fun n => ?_, fun n f hf => ?_, fun p hp => ?_⟩
  · obtain ⟨-, h2, h3, -⟩ := run_max hd.run hc n
    exact ⟨h3, h2⟩
  · exact (run_max hd.run hc n).2.2.2
  · rw [run_getElem hd.run n f hf]
  · rw [((afterLoop_published env s hd.inLoop).2 p hp).2.2.1]
    exact run_cursor hd.run

/-- The run `twoEnv`, whose source obeys the contract: the notification carries
cursor 2, the greatest identifier fetched. -/
theorem cursor_is_max_witness :
    ∃ r, Export twoEnv 2 0 = some r ∧
      (sends r.trace).map (fun p => p.lastID) = [2] ∧
      fetchedIds (fetches r.trace) = [1, 2] ∧
      (∀ p ∈ sends r.trace, p.lastID = cursorAfter 0 (fetches r.trace)) :=
  ⟨_, rfl, by decide, by decide,
    (cursor_is_max twoEnv 2 0 _ rfl (contractList_obeys _ (sample_asc 2))).2.2.2⟩

end Claims

/-! ## Termination of the fetch loop (C8) -/

section Claims

variable {D : Deps}

/-- C8, as amended: over a source that holds the records `recs` (in ascending
order of identifier, all past the starting cursor), obeys the page-fetch
contract and never errors, and when no flush reports an error, the loop of
`Export` ends: with any fuel of at least `ceil(n/5000) + 1` passes it returns
the same state, without error and with row count `n = recs.length`.  It has made
`ceil(n/5000) + 1` fetches, every one with limit 5000: the pages have the lengths
`pageSizes n`, all but the last are non-empty, the last is empty, and together
they are the records of the source in order. -/
theorem fetch_loop_pages (env : Env D) (recs : List (Hit D)) (last : Int)
    (hasc : recs.Pairwise (fun a b => a.id < b.id)) (hafter : ∀ hit ∈ recs, last < hit.id)
    (henv : env.list = contractList recs) (hfl : ∀ k, env.flushErr k = false) :
    ∃ s, (∀ fuel, (recs.length + 4999) / 5000 + 1 ≤ fuel →
        loop env fuel (start D last) = some s ∧
        Export env fuel last = some (afterLoop env s)) ∧
      s.err = false ∧ s.rows = recs.length ∧
      (fetches s.trace).map (fun f => f.res.hits.length) = pageSizes recs.length ∧
      (fetches s.trace).length = (recs.length + 4999) / 5000 + 1 ∧
      (∀ f ∈ fetches s.trace, f.limit = 5000) ∧
      (∀ f ∈ (fetches s.trace).dropLast, f.res.hits ≠ []) ∧
      (∃ f, (fetches s.trace).getLast? = some f ∧ f.res.hits = []) ∧
      fetched s.trace = recs := by
  have hR : recs.filter (fun hit => decide ((start D last).last < hit.id)) = recs := by
    rw [List.filter_eq_self]
    intro hit hm
    simpa [start] using hafter hit hm
  have hK : (recs.filter (fun hit => decide ((start D last).last < hit.id))).length
      ≤ 5000 * ((recs.length + 4999) / 5000) := by
    rw [hR]; omega
  obtain ⟨s, h1, h2, h3, h4⟩ := loop_contract env recs hasc henv hfl _ (start D last) hK
  rw [hR] at h3 h4
  have hd := loop_done env _ last s h1
  have hsz : (fetches s.trace).map (fun f => f.res.hits.length) = pageSizes recs.length := by
    simpa [start, Event.fetch?] using h3
  have hfd : fetched s.trace = recs := by
    simpa [start, fetched, Event.fetch?] using h4
  refine ⟨s, fun fuel hf => ?_, h2, ?_, hsz, ?_, hd.limits, fun f hf => (hd.pages f hf).1,
    ?_, hfd⟩
  · have hl : loop env fuel (start D last) = some s := by
      have := loop_mono env (fuel - ((recs.length + 4999) / 5000 + 1)) _ _ _ h1
      rwa [show (recs.length + 4999) / 5000 + 1 + (fuel - ((recs.length + 4999) / 5000 + 1))
        = fuel by omega] at this
    exact ⟨hl, by simp [Export, hl]⟩
  · rw [hd.rows h2, hfd]
  · have := congrArg List.length hsz
    rw [List.length_map, length_pageSizes] at this
    exact this
  · obtain ⟨⟨f, hf, hh, -⟩, -⟩ := hd.errIff.mp h2
    exact ⟨f, hf, hh⟩

/-- The run `twelveThousandEnv`: 12000 records give fetches of 5000, 5000 and
2000 records and then the empty page, with final row count 12000. -/
theorem fetch_loop_pages_witness :
    ∃ s, loop twelveThousandEnv 4 (start plainDeps 0) = some s ∧
      s.err = false ∧ s.rows = 12000 ∧
      (fetches s.trace).map (fun f => f.res.hits.length) = [5000, 5000, 2000, 0] ∧
      (fetches s.trace).length = 4 ∧
      (∀ f ∈ fetches s.trace, f.limit = 5000) := by
  obtain ⟨s, h1, h2, h3, h4, h5, h6, -⟩ :=
    fetch_loop_pages twelveThousandEnv twelveThousand 0 (sample_asc 12000)
      (by
        intro hit hm
        simp only [twelveThousand, List.mem_map, List.mem_range] at hm
        obtain ⟨i, -, rfl⟩ := hm
        simp [sampleHit])
      rfl (fun _ => rfl)
  have hlen : twelveThousand.length = 12000 := by simp [twelveThousand]
  rw [hlen] at h1 h3 h4 h5
  exact ⟨s, (h1 4 (by norm_num)).1, h2, h3, by rw [h4]; decide, by rw [h5], h6⟩

/-- C8 as stated fails when a flush fails: in the run `flushFailEnv` the source
holds two records, obeys the contract and never errors, yet the loop ends after
its first fetch, because the flush after the first page reports an error; the
empty page is never fetched. -/
theorem flush_error_stops_fetching :
    flushFailEnv.list = contractList [sampleHit 1, sampleHit 2] ∧
    ∃ s, (∀ fuel, 1 ≤ fuel → loop flushFailEnv fuel (start plainDeps 0) = some s) ∧
      (fetches s.trace).map (fun f => f.res.hits.length) = [2] ∧
      (fetches s.trace).map (fun f => f.res.hits.length) ≠
        pageSizes [sampleHit 1, sampleHit 2].length := by
  refine ⟨rfl, (iter flushFailEnv (start plainDeps 0)).1, fun fuel hf => ?_, ?_, ?_⟩
  · have h1 : loop flushFailEnv 1 (start plainDeps 0) =
        some (iter flushFailEnv (start plainDeps 0)).1 := rfl
    have := loop_mono flushFailEnv (fuel - 1) 1 _ _ h1
    rwa [show 1 + (fuel - 1) = fuel by omega] at this
  · decide
  · decide

end Claims

end GoatCounter
